import Mathlib

/-!
Shallow embedding of the HARMin per-request minimization core
(`har_minimizer/minimizer.py`, `har_minimizer/comparator.py`,
`har_minimizer/http_client.py`, `har_minimizer/models.py`).

Python strings are Lean `String`s; Python `dict`s are association lists
built with an insert-or-replace operation that mirrors Python's
insertion-ordered, last-write-wins assignment.  Python `float` ratios in
the comparator are modelled exactly over `ℚ`.  The network is modelled as
an explicit state-threading function (`Net`), since the transport is the
only side-effecting collaborator the core observes; a side-effecting
predicate closure becomes a state-threading test function.  Compiled
regular expressions are modelled as opaque decision functions
`String → Bool` (the embedding never needs to evaluate a concrete
pattern: configurations instantiated in concrete runs use an empty
pattern list).
-/

namespace HARMin

/-- Structural prefix test on character lists (used to model Python's
substring operator `in`). -/
def matchAt : List Char → List Char → Bool
  | [], _ => true
  | _ :: _, [] => false
  | a :: as, b :: bs => a == b && matchAt as bs

/-- Structural occurrence test: does the needle occur contiguously in the
haystack?  Models Python's `needle in haystack` on `str`. -/
def occursIn (needle : List Char) : List Char → Bool
  | [] => matchAt needle []
  | c :: rest => matchAt needle (c :: rest) || occursIn needle rest

/-- Python `needle in haystack` for strings. -/
def strContains (hay needle : String) : Bool :=
  occursIn needle.data hay.data

/-- Python `str.lower()` (ASCII case folding suffices for the header and
mime-type names the code lowers). -/
def strLower (s : String) : String := String.mk (s.data.map Char.toLower)

/-- Python `str.upper()` (used on the comparator's `logic` field). -/
def strUpper (s : String) : String := String.mk (s.data.map Char.toUpper)

/-- One ordered header entry.  `models.RequestData.headers` keeps a list of
`{"name": ..., "value": ...}` dictionaries, duplicates preserved; a missing
name is modelled as the empty string (it is skipped by the dict
conversion, as `_headers_list_to_dict` skips falsy names). -/
structure Header where
  name : String
  value : String
deriving DecidableEq, Repr

/-- Python-dict assignment `d[k] = v` on an insertion-ordered association
list: replace the value in place when the key is present, append
otherwise. -/
def dictInsert (d : List (String × String)) (k v : String) : List (String × String) :=
  if d.any (fun p => p.1 == k) then d.map (fun p => if p.1 = k then (k, v) else p)
  else d ++ [(k, v)]

/-- Python dict lookup `d.get(k)`. -/
def dictLookup (d : List (String × String)) (k : String) : Option String :=
  match d.find? (fun p => p.1 == k) with
  | some p => some p.2
  | none => none

/-- `dict(pairs)`: fold Python-dict assignment over a pair list. -/
def pydict_of_pairs (ps : List (String × String)) : List (String × String) :=
  ps.foldl (fun acc p => dictInsert acc p.1 p.2) []

/-- `minimizer._headers_list_to_dict`: convert the ordered header-entry
list to a name-to-value mapping, skipping entries with falsy (empty)
names; a repeated name keeps the last value. -/
def headersListToDict (headers : List Header) : List (String × String) :=
  headers.foldl (fun acc h => if h.name = "" then acc else dictInsert acc h.name h.value) []

/-- `models.ResponseSnapshot` (the `elapsed` float and the response-header
map are never consulted by the minimization core and are omitted). -/
structure ResponseSnapshot where
  status_code : Option Int
  body : Option String
  error : Option String
deriving DecidableEq, Repr

/-- `ResponseSnapshot.ok()`: error absent and status present. -/
def ResponseSnapshot.ok (s : ResponseSnapshot) : Bool :=
  s.error.isNone && s.status_code.isSome

/-- `ResponseSnapshot.length`: body length, `0` when the body is absent. -/
def ResponseSnapshot.length (s : ResponseSnapshot) : Nat :=
  match s.body with
  | none => 0
  | some b => b.length

/-- Modelled from the spec: the comparator policy structure
(`config.ComparatorConfig`, whose defining module is not part of the
sources at hand): active signals, AND/OR combination, length tolerance
fraction, required substrings, any-of substrings, required patterns.
Compiled patterns are opaque search functions. -/
structure ComparatorConfig where
  status_code : Bool
  length_check : Bool
  length_tolerance : ℚ
  need_all : List String
  need_any : List String
  regex : List (String → Bool)
  logic : String

/-- `ResponseComparator._status_equal`. -/
def statusEqual (base cand : ResponseSnapshot) : Bool :=
  decide (base.status_code = cand.status_code)

/-- `ResponseComparator._length_within`: a zero-length baseline requires a
zero-length candidate; otherwise the relative delta must not exceed the
tolerance (the Python float ratio is modelled exactly in `ℚ`). -/
def lengthWithin (cc : ComparatorConfig) (base cand : ResponseSnapshot) : Bool :=
  if base.length = 0 then decide (cand.length = 0)
  else decide (|((base.length : ℚ) - (cand.length : ℚ))| / (base.length : ℚ) ≤ cc.length_tolerance)

/-- `ResponseComparator._need_all`: false when the candidate body is
absent, else all required substrings occur. -/
def needAll (cc : ComparatorConfig) (cand : ResponseSnapshot) : Bool :=
  match cand.body with
  | none => false
  | some b => cc.need_all.all (fun token => strContains b token)

/-- `ResponseComparator._need_any`: false when the candidate body is
absent, else at least one listed substring occurs. -/
def needAny (cc : ComparatorConfig) (cand : ResponseSnapshot) : Bool :=
  match cand.body with
  | none => false
  | some b => cc.need_any.any (fun token => strContains b token)

/-- `ResponseComparator._regex_match`: false when the candidate body is
absent, else every configured pattern matches. -/
def regexMatch (cc : ComparatorConfig) (cand : ResponseSnapshot) : Bool :=
  match cand.body with
  | none => false
  | some b => cc.regex.all (fun r => r b)

/-- `ResponseComparator.equivalent`: false if either snapshot is
unhealthy; otherwise gather the enabled signals, vacuously true when none
is enabled, combined by OR when `logic.upper() == "OR"` and by AND
otherwise. -/
def equivalent (cc : ComparatorConfig) (baseline candidate : ResponseSnapshot) : Bool :=
  if !(baseline.ok && candidate.ok) then false
  else
    let checks : List (Bool × Bool) :=
      [(cc.status_code, statusEqual baseline candidate),
       (cc.length_check, lengthWithin cc baseline candidate),
       (!cc.need_all.isEmpty, needAll cc candidate),
       (!cc.need_any.isEmpty, needAny cc candidate),
       (!cc.regex.isEmpty, regexMatch cc candidate)]
    let active := (checks.filter (fun p => p.1)).map (fun p => p.2)
    if active.isEmpty then true
    else if strUpper cc.logic = "OR" then active.any (fun x => x)
    else active.all (fun x => x)

/-- `models.RequestData`: the structured record extracted from one HAR
entry (the opaque `raw_entry` pass-through fragment is omitted). -/
structure RequestData where
  index : Nat
  method : String
  url : String
  path : String
  query : List (String × String)
  headers : List Header
  body_text : Option String
  mime_type : Option String

/-- Modelled from the spec: the header policy structure
(`config`, not among the sources at hand): protected names, ignored
names, optional allow-patterns (opaque, case-insensitive search functions
applied to the lowered name), enabled flag.  The field `protected` of the
source keeps its meaning under the name `protected_names` (`protected` is
a Lean keyword). -/
structure HeadersConfig where
  enabled : Bool
  protected_names : List String
  ignore : List String
  candidate_regex : List (String → Bool)

/-- Modelled from the spec: the body policy structure (`config`, not
among the sources at hand): enabled flag, encoding mode, protected keys,
optional allow-list (empty list means "no allow-list", matching Python's
falsy check), removed-means-absent toggle, blank-surviving-values
toggle. -/
structure BodyConfig where
  enabled : Bool
  body_type : String
  protected_keys : List String
  only_keys : List String
  treat_empty_as_absent : Bool
  try_blank_values : Bool

/-- Modelled from the spec: the minimization policy grouping
(`config.minimization`): phase ordering and the two phase policies. -/
structure MinimizationConfig where
  order : List String
  headers : HeadersConfig
  body : BodyConfig

/-- Modelled from the spec: the top-level configuration slice consumed by
`RequestMinimizer` (`config.Config`): the global per-request test budget
and the minimization policies. -/
structure Config where
  max_rounds_per_request : Int
  minimization : MinimizationConfig

/-- `models.MinimizationResult`. -/
structure MinimizationResult where
  headers : List Header
  body_text : Option String
  response : Option ResponseSnapshot
  matched : Bool
  header_candidates : Nat
  body_candidates : Nat
  minimized_headers : Nat
  minimized_body_fields : Nat

/-- The network environment behind `HttpClient.send`: a state-threading
function from the sent name-to-value header mapping and effective body to
a response snapshot.  Statefulness covers both a stateful target service
and instrumentation (logging) used by the theorems. -/
def Net (σ : Type) : Type :=
  σ → List (String × String) → Option String → σ × ResponseSnapshot

/-- `HttpClient.send`: one exchange.  The `data=body if body is not None
else request.body_text` fallback of the source is kept; pacing, timeout
and TLS concerns do not affect the returned snapshot's value and live in
the abstract `Net`. -/
def send {σ : Type} (net : Net σ) (request : RequestData) (s : σ)
    (headers : List (String × String)) (body : Option String) : σ × ResponseSnapshot :=
  net s headers (match body with | none => request.body_text | some b => some b)

/-- `minimizer.resolve_body_kind`: forced mode, or auto-detection from the
declared (lowered) content type. -/
def resolve_body_kind (request : RequestData) (mode : String) : String :=
  let mime := strLower (request.mime_type.getD "")
  if mode = "auto" then
    if strContains mime "json" then "json"
    else if strContains mime "x-www-form-urlencoded" then "form"
    else "raw"
  else mode

/-- Double-quote a JSON string (the bodies the minimizer rebuilds and the
claims evaluate carry no characters needing escapes; escape handling is
out of the modelled subset and the paired reader rejects escapes). -/
def jsonQuote (s : String) : String := "\"" ++ s ++ "\""

/-- Join with a separator (Python `sep.join`). -/
def joinSep (sep : String) : List String → String
  | [] => ""
  | [x] => x
  | x :: y :: xs => x ++ sep ++ joinSep sep (y :: xs)

/-- `json.dumps(data, separators=(",", ":"))` on a flat string-valued
object, iterated in insertion order. -/
def json_dumps (d : List (String × String)) : String :=
  "\x7b" ++ joinSep "," (d.map (fun kv => jsonQuote kv.1 ++ ":" ++ jsonQuote kv.2)) ++ "\x7d"

/-- Read one JSON string literal body after its opening quote; stops at
the closing quote and rejects escapes (outside the modelled subset). -/
def jstrAux : List Char → List Char → Option (String × List Char)
  | [], _ => none
  | c :: rest, acc =>
    if c == '\"' then some (String.mk acc.reverse, rest)
    else if c == '\\' then none
    else jstrAux rest (c :: acc)

/-- Read one JSON string literal including its opening quote. -/
def jstr : List Char → Option (String × List Char)
  | '\"' :: rest => jstrAux rest []
  | _ => none

/-- Read the members of a JSON object after the opening brace: a
non-empty `"k":"v"` list separated by commas and closed by the final
brace, which must end the input.  Fuel-driven structural recursion; the
caller supplies more fuel than members. -/
def jsonMembers : Nat → List Char → Option (List (String × String))
  | 0, _ => none
  | fuel + 1, cs =>
    match jstr cs with
    | none => none
    | some (k, rest) =>
      match rest with
      | ':' :: rest2 =>
        match jstr rest2 with
        | none => none
        | some (v, rest3) =>
          match rest3 with
          | ',' :: rest4 => (jsonMembers fuel rest4).map (fun ms => (k, v) :: ms)
          | '\x7d' :: rest5 => if rest5.isEmpty then some [(k, v)] else none
          | _ => none
      | _ => none

/-- `json.loads` restricted to the subset the minimizer round-trips: a
flat object with string keys and string values, no surrounding
whitespace, no escapes.  Any other input — including valid JSON that is
not an object of strings — yields `none`, which the callers treat exactly
as Python treats a decode error or a non-dict value.  Duplicate keys keep
the last value, as Python's `json.loads` does. -/
def json_loads_obj (s : String) : Option (List (String × String)) :=
  match s.data with
  | '\x7b' :: rest =>
    match rest with
    | ['\x7d'] => some []
    | _ => (jsonMembers (rest.length + 1) rest).map pydict_of_pairs
  | _ => none

/-- Split a character list on `&` (for `urllib.parse.parse_qsl`). -/
def splitAmp : List Char → List (List Char)
  | [] => [[]]
  | c :: rest =>
    let r := splitAmp rest
    if c == '&' then [] :: r
    else
      match r with
      | [] => [[c]]
      | h :: t => (c :: h) :: t

/-- Split a field on its first `=`; `none` when there is no `=` (such a
field is dropped by `parse_qsl`). -/
def splitFirstEq : List Char → Option (List Char × List Char)
  | [] => none
  | c :: rest =>
    if c == '=' then some ([], rest)
    else
      match splitFirstEq rest with
      | none => none
      | some (a, b) => some (c :: a, b)

/-- `urllib.parse.parse_qsl(body, keep_blank_values=True)` on the subset
without percent-encoding: split on `&`, keep fields with an `=` (blank
values kept), drop the rest. -/
def parse_qsl (s : String) : List (String × String) :=
  (splitAmp s.data).filterMap (fun part =>
    match splitFirstEq part with
    | none => none
    | some (k, v) => some (String.mk k, String.mk v))

/-- `urllib.parse.urlencode` on the subset without percent-encoding:
`k=v` fields joined by `&`. -/
def urlencode (d : List (String × String)) : String :=
  joinSep "&" (d.map (fun kv => kv.1 ++ "=" ++ kv.2))

/-- `minimizer._parse_body`: decode the body per the resolved kind; an
undecodable or non-object JSON body degrades to `("raw", none)`, a form
body decodes to its last-wins pair dict. -/
def parse_body (request : RequestData) (mode : String) : String × Option (List (String × String)) :=
  let body := request.body_text.getD ""
  let kind := resolve_body_kind request mode
  if kind = "json" then
    match (if body = "" then some [] else json_loads_obj body) with
    | none => ("raw", none)
    | some parsed => ("json", some parsed)
  else if kind = "form" then ("form", some (pydict_of_pairs (parse_qsl body)))
  else ("raw", none)

/-- `minimizer._build_body_text`: serialize a rebuilt field map, `none`
for an absent map or a raw kind. -/
def build_body_text (kind : String) (data : Option (List (String × String))) : Option String :=
  match data with
  | none => none
  | some d =>
    if kind = "json" then some (json_dumps d)
    else if kind = "form" then some (urlencode d)
    else none

/-- `minimizer.count_body_fields`: decoded field count of a body, `0`
when absent, blank, undecodable or raw. -/
def count_body_fields (kind : String) (body_text : Option String) : Nat :=
  match body_text with
  | none => 0
  | some bt =>
    if bt = "" then 0
    else if kind = "json" then
      match json_loads_obj bt with
      | none => 0
      | some parsed => parsed.length
    else if kind = "form" then (parse_qsl bt).length
    else 0

/-- Budget check at the head of each chunk test of `_ddmin`:
`max_tests is not None and tests >= max_tests`. -/
def budgetHit (maxTests : Option Int) (tests : Nat) : Bool :=
  match maxTests with
  | none => false
  | some m => decide ((tests : Int) ≥ m)

/-- Non-positive-budget check at the entry of `_ddmin`:
`max_tests is not None and max_tests <= 0`. -/
def budgetNonPositive (maxTests : Option Int) : Bool :=
  match maxTests with
  | none => false
  | some m => decide (m ≤ 0)

/-- Outcome of one inner scan of `_ddmin` (one pass over the chunk start
positions): a successful removal committing the remainder, a full pass
without removal, or budget exhaustion detected before a test. -/
inductive ScanOut (α σ : Type) where
  | removed (remainder : List α) (s : σ) (tests : Nat)
  | noRemoval (s : σ) (tests : Nat)
  | exhausted (s : σ) (tests : Nat)

/-- The chunk start positions the inner `while start < len(collection)`
loop of `_ddmin` visits: the multiples of the chunk size below the
collection length. -/
def chunkStarts (len size : Nat) : List Nat :=
  (List.range len).filter (fun i => i % size == 0)

/-- The inner loop of `_ddmin`: walk the chunk start positions in order;
before each test check the budget; on a passing test commit the remainder
(the collection with that chunk sliced out).  Each test consumes one
budget unit and threads the caller's state. -/
def scanChunks {α σ : Type} (test : σ → List α → σ × Bool) (maxTests : Option Int)
    (collection : List α) (size : Nat) :
    List Nat → σ → Nat → ScanOut α σ
  | [], s, tests => .noRemoval s tests
  | start :: rest, s, tests =>
    if budgetHit maxTests tests then .exhausted s tests
    else
      let remainder := collection.take start ++ collection.drop (start + size)
      let r := test s remainder
      if r.2 then .removed remainder r.1 (tests + 1)
      else scanChunks test maxTests collection size rest r.1 (tests + 1)

/-- The outer `while len(collection) >= 1` loop of `_ddmin`, driven by a
fuel counter that strictly exceeds the loop's termination measure (so the
zero-fuel default is never reached from `ddmin`; the independence from
surplus fuel is proved below).  A passing removal commits the remainder
and relaxes the granularity to `max(n-1, 2)`; a pass without removal
stops once `n >= len(collection)` and otherwise doubles `n`, capped at
the collection length. -/
def ddminLoop {α σ : Type} (test : σ → List α → σ × Bool) (maxTests : Option Int) :
    Nat → List α → Nat → Nat → σ → List α × Nat × σ
  | 0, collection, _, tests, s => (collection, tests, s)
  | fuel + 1, collection, n, tests, s =>
    if collection.length < 1 then (collection, tests, s)
    else
      let subset_size := (collection.length + n - 1) / n
      match scanChunks test maxTests collection subset_size
          (chunkStarts collection.length subset_size) s tests with
      | .exhausted s2 tests2 => (collection, tests2, s2)
      | .removed remainder s2 tests2 =>
        ddminLoop test maxTests fuel remainder (max (n - 1) 2) tests2 s2
      | .noRemoval s2 tests2 =>
        if collection.length ≤ n then (collection, tests2, s2)
        else ddminLoop test maxTests fuel collection (min collection.length (n * 2)) tests2 s2

/-- Termination measure of the `_ddmin` outer loop: lexicographic
(collection length, length minus granularity), flattened to one natural
number. -/
def ddminMeasure (len n : Nat) : Nat := len * (len + 2) + (len - n)

/-- Fuel with which `ddmin` runs its loop; strictly above the measure at
the entry granularity `n = 2` for every length. -/
def ddminFuel (len : Nat) : Nat := (len + 1) * (len + 3)

/-- `minimizer._ddmin`: the delta-debugging engine.  Empty input returns
`([], 0)`; a non-positive budget returns the input unchanged with zero
tests; otherwise the chunked-reduction loop starts at granularity 2.  The
threaded `σ` models the side effects of the Python test callable (its
captured best-known state and the network it touches). -/
def ddmin {α σ : Type} (items : List α) (test : σ → List α → σ × Bool)
    (maxTests : Option Int) (s : σ) : List α × Nat × σ :=
  if items.isEmpty then ([], 0, s)
  else if budgetNonPositive maxTests then (items, 0, s)
  else ddminLoop test maxTests (ddminFuel items.length) items 2 0 s

/-- Wrap a test function so that the threaded state also accumulates the
exact list of collections the predicate was called on (one log entry per
predicate call). -/
def loggingTest {α σ : Type} (test : σ → List α → σ × Bool) :
    (σ × List (List α)) → List α → (σ × List (List α)) × Bool :=
  fun st r =>
    let out := test st.1 r
    ((out.1, st.2 ++ [r]), out.2)

/-- Wrap a network so that its state also accumulates the exact sequence
of exchanges issued (header mapping and effective body of each). -/
def loggingNet {σ : Type} (net : Net σ) : Net (σ × List (List (String × String) × Option String)) :=
  fun st headers body =>
    let out := net st.1 headers body
    ((out.1, st.2 ++ [(headers, body)]), out.2)

/-- The value tuple a reduction phase of `RequestMinimizer` returns:
threaded network state, reduced artifact, candidate count, best-known
(artifact, response) pair, tests consumed. -/
structure PhaseOut (σ β : Type) where
  state : σ
  value : β
  candidates : Nat
  best : β × ResponseSnapshot
  tests : Nat

/-- The header classification of `RequestMinimizer._minimize_headers`:
a header is fixed when its lowered name is protected or ignored, or when
allow-patterns are configured and none matches the lowered name. -/
def header_fixed (hcfg : HeadersConfig) (header : Header) : Bool :=
  let name := strLower header.name
  if (hcfg.protected_names.map strLower).contains name
      || (hcfg.ignore.map strLower).contains name then true
  else if !hcfg.candidate_regex.isEmpty
      && !(hcfg.candidate_regex.any (fun r => r name)) then true
  else false

/-- The candidate/fixed split of `RequestMinimizer._minimize_headers`
(the source's single loop appending each header to exactly one of the two
lists, in order). -/
def classify_headers (hcfg : HeadersConfig) (current_headers : List Header) :
    List Header × List Header :=
  (current_headers.filter (fun h => !(header_fixed hcfg h)),
   current_headers.filter (fun h => header_fixed hcfg h))

/-- `RequestMinimizer._minimize_headers`: split into candidates and fixed
entries, reduce the candidates with a predicate that sends the fixed
entries followed by the surviving candidates (with the original body) and
remembers the most recent passing (header list, response) pair, then
return the best-known state (the source overwrites `minimized_headers`
with `best_state[0]` whenever the two differ). -/
def minimize_headers {σ : Type} (cc : ComparatorConfig) (hcfg : HeadersConfig) (net : Net σ)
    (request : RequestData) (current_headers : List Header) (baseline : ResponseSnapshot)
    (max_tests : Int) (s : σ) : PhaseOut σ (List Header) :=
  let cf := classify_headers hcfg current_headers
  let candidates := cf.1
  let fixed := cf.2
  if candidates.isEmpty then
    { state := s, value := current_headers, candidates := 0,
      best := (current_headers, baseline), tests := 0 }
  else
    let test : (σ × (List Header × ResponseSnapshot)) → List Header →
        (σ × (List Header × ResponseSnapshot)) × Bool := fun st active_headers =>
      let headers := fixed ++ active_headers
      let pr := send net request st.1 (headersListToDict headers) request.body_text
      if equivalent cc baseline pr.2 then ((pr.1, (headers, pr.2)), true)
      else ((pr.1, st.2), false)
    let out := ddmin candidates test (some max_tests) (s, (current_headers, baseline))
    let minimized := out.1
    let tests := out.2.1
    let s2 := out.2.2.1
    let best_state := out.2.2.2
    let minimized_headers0 := fixed ++ minimized
    let minimized_headers :=
      if best_state.1 ≠ minimized_headers0 then best_state.1 else minimized_headers0
    { state := s2, value := minimized_headers, candidates := candidates.length,
      best := best_state, tests := tests }

/-- The candidate-field filter of `RequestMinimizer._minimize_body`: not
protected, and inside the allow-list when one is configured. -/
def body_candidate (bcfg : BodyConfig) (k : String) : Bool :=
  !(bcfg.protected_keys.contains k)
    && (bcfg.only_keys.isEmpty || bcfg.only_keys.contains k)

/-- The body rebuild of `RequestMinimizer._minimize_body`: start from the
fixed fields, overlay the surviving candidate values, and — unless
removal means absence — blank every non-surviving candidate key. -/
def rebuild_body (bcfg : BodyConfig) (fixed : List (String × String))
    (candidate_keys : List String) (active_items : List (String × String)) :
    List (String × String) :=
  let active_lookup := pydict_of_pairs active_items
  let merged := active_lookup.foldl (fun m kv => dictInsert m kv.1 kv.2) fixed
  if !bcfg.treat_empty_as_absent then
    candidate_keys.foldl
      (fun m k => if active_lookup.any (fun kv => kv.1 == k) then m else dictInsert m k "") merged
  else merged

/-- `RequestMinimizer._minimize_body`: decode the body (skip on an
undecodable, non-object or empty result), split fields into fixed and
candidates, reduce the candidate (key, value) pairs with a predicate that
rebuilds the body, sends it with the already-reduced headers and
remembers the most recent passing (body text, response) pair, and return
the best-known body text. -/
def minimize_body {σ : Type} (cc : ComparatorConfig) (bcfg : BodyConfig) (net : Net σ)
    (request : RequestData) (headers : List Header) (baseline : ResponseSnapshot)
    (max_tests : Int) (s : σ) : PhaseOut σ (Option String) :=
  let pk := parse_body request bcfg.body_type
  let kind := pk.1
  match pk.2 with
  | none =>
    { state := s, value := request.body_text, candidates := 0,
      best := (request.body_text, baseline), tests := 0 }
  | some parsed =>
    let candidates := parsed.filter (fun kv => body_candidate bcfg kv.1)
    if parsed.isEmpty || candidates.isEmpty then
      { state := s, value := request.body_text, candidates := 0,
        best := (request.body_text, baseline), tests := 0 }
    else
      let fixed := parsed.filter (fun kv => !(candidates.any (fun c => c.1 == kv.1)))
      let candidate_items := candidates
      let candidate_keys := candidate_items.map Prod.fst
      let test : (σ × (Option String × ResponseSnapshot)) → List (String × String) →
          (σ × (Option String × ResponseSnapshot)) × Bool := fun st active_items =>
        let body_text := build_body_text kind
          (some (rebuild_body bcfg fixed candidate_keys active_items))
        let pr := send net request st.1 (headersListToDict headers) body_text
        if equivalent cc baseline pr.2 then ((pr.1, (body_text, pr.2)), true)
        else ((pr.1, st.2), false)
      let out := ddmin candidate_items test (some max_tests) (s, (request.body_text, baseline))
      let minimized := out.1
      let tests := out.2.1
      let s2 := out.2.2.1
      let best_state := out.2.2.2
      let final_body :=
        match best_state.1 with
        | none => build_body_text kind (some (rebuild_body bcfg fixed candidate_keys minimized))
        | some b => some b
      { state := s2, value := final_body, candidates := candidate_items.length,
        best := best_state, tests := tests }

/-- The body rebuild of `RequestMinimizer._try_blank_body_values`: keep
the original value of the active keys, blank every other candidate key
(fields are never removed). -/
def rebuild_blank (parsed : List (String × String)) (candidate_keys : List String)
    (active_keys : List String) : List (String × String) :=
  candidate_keys.foldl
    (fun m k => if active_keys.contains k then m else dictInsert m k "") parsed

/-- `RequestMinimizer._try_blank_body_values`: on a decodable non-blank
JSON or form body, reduce (without budget) the set of candidate keys
keeping their value — the others blanked — remembering every passing
(body text, response) pair; after convergence issue one confirmation
exchange, and return the best passing state only when it differs
textually from the incoming body. -/
def try_blank_body_values {σ : Type} (cc : ComparatorConfig) (bcfg : BodyConfig) (net : Net σ)
    (request : RequestData) (headers : List Header) (baseline : ResponseSnapshot)
    (body_kind : String) (current_body : Option String) (s : σ) :
    σ × Option (Option String × ResponseSnapshot) :=
  if !(body_kind = "json" || body_kind = "form") || current_body.getD "" = "" then (s, none)
  else
    let parsedOpt : Option (List (String × String)) :=
      if body_kind = "json" then json_loads_obj (current_body.getD "")
      else some (pydict_of_pairs (parse_qsl (current_body.getD "")))
    match parsedOpt with
    | none => (s, none)
    | some parsed =>
      let candidate_keys := (parsed.map Prod.fst).filter (fun k => body_candidate bcfg k)
      if candidate_keys.isEmpty then (s, none)
      else
        let test : (σ × (Option String × Option ResponseSnapshot)) → List String →
            (σ × (Option String × Option ResponseSnapshot)) × Bool := fun st active_keys =>
          let body_text := build_body_text body_kind
            (some (rebuild_blank parsed candidate_keys active_keys))
          let pr := send net request st.1 (headersListToDict headers) body_text
          if equivalent cc baseline pr.2 then ((pr.1, (body_text, some pr.2)), true)
          else ((pr.1, st.2), false)
        let out := ddmin candidate_keys test none (s, (current_body, none))
        let minimized_keep := out.1
        let s1 := out.2.2.1
        let best1 := out.2.2.2
        let body_text := build_body_text body_kind
          (some (rebuild_blank parsed candidate_keys minimized_keep))
        let pr := send net request s1 (headersListToDict headers) body_text
        let s2 := pr.1
        let best2 := if equivalent cc baseline pr.2 then (body_text, some pr.2) else best1
        match best2.2 with
        | some r => if best2.1 ≠ current_body then (s2, some (best2.1, r)) else (s2, none)
        | none => (s2, none)

/-- The fallback cascade of `RequestMinimizer.minimize` (the code after
the cross-validation exchange): when the final response is equivalent,
keep the jointly-reduced state with `matched=true`.  Otherwise try, in
order: the best-known body state (already paired with the reduced
headers), the best-known header state with the original body, and
unconditionally the untouched originals with the baseline response —
accepted with `matched=true` without consulting the comparator (the
remembered combo snapshots are dataclass instances, hence always truthy
in the source's `if fallback_body_response and ...` guards). -/
def fallbackCascade (cc : ComparatorConfig) (request : RequestData)
    (original_headers : List Header) (baseline : ResponseSnapshot)
    (final_headers : List Header) (final_body : Option String)
    (final_response : ResponseSnapshot)
    (best_header_combo : List Header × ResponseSnapshot)
    (best_body_combo : Option String × ResponseSnapshot) :
    List Header × Option String × ResponseSnapshot × Bool :=
  let matched := equivalent cc baseline final_response
  if matched then (final_headers, final_body, final_response, matched)
  else
    let fallback_headers := best_header_combo.1
    let fallback_response := best_header_combo.2
    let fallback_body := best_body_combo.1
    let fallback_body_response := best_body_combo.2
    if equivalent cc baseline fallback_body_response then
      (final_headers, fallback_body, fallback_body_response, true)
    else if equivalent cc baseline fallback_response then
      (fallback_headers, request.body_text, fallback_response, true)
    else (original_headers, request.body_text, baseline, true)

/-- `RequestMinimizer.minimize`: baseline exchange (an unhealthy baseline
terminates the request with the originals and `matched=false`), then the
header phase and the body phase when scheduled and enabled (each charged
against the per-request budget), one cross-validation exchange, the
fallback cascade, and the optional blank-value refinement whose adopted
result re-runs the comparator for the final `matched`. -/
def minimize {σ : Type} (cfg : Config) (cc : ComparatorConfig) (net : Net σ)
    (request : RequestData) (s0 : σ) : σ × ResponseSnapshot × MinimizationResult :=
  let original_headers := request.headers
  let base_headers_dict := headersListToDict original_headers
  let pb := send net request s0 base_headers_dict request.body_text
  let s1 := pb.1
  let baseline := pb.2
  if !baseline.ok then
    (s1, baseline,
      { headers := original_headers, body_text := request.body_text,
        response := some baseline, matched := false,
        header_candidates := original_headers.length, body_candidates := 0,
        minimized_headers := original_headers.length, minimized_body_fields := 0 })
  else
    let remaining0 : Int := cfg.max_rounds_per_request
    let body_kind := resolve_body_kind request cfg.minimization.body.body_type
    let hrun := cfg.minimization.order.contains "headers" && cfg.minimization.headers.enabled
    let hout : PhaseOut σ (List Header) :=
      if hrun then
        minimize_headers cc cfg.minimization.headers net request original_headers baseline
          (max 0 remaining0) s1
      else
        { state := s1, value := original_headers, candidates := 0,
          best := (original_headers, baseline), tests := 0 }
    let headers_state := hout.value
    let best_header_combo := hout.best
    let remaining1 : Int := if hrun then max 0 (remaining0 - hout.tests) else remaining0
    let brun := cfg.minimization.order.contains "body" && cfg.minimization.body.enabled
    let bout : PhaseOut σ (Option String) :=
      if brun then
        minimize_body cc cfg.minimization.body net request headers_state baseline
          (max 0 remaining1) hout.state
      else
        { state := hout.state, value := request.body_text, candidates := 0,
          best := (request.body_text, best_header_combo.2), tests := 0 }
    let pcv := send net request bout.state (headersListToDict headers_state) bout.value
    let s4 := pcv.1
    let fb := fallbackCascade cc request original_headers baseline headers_state bout.value
      pcv.2 best_header_combo bout.best
    let final_headers := fb.1
    let doBlank := fb.2.2.2 && cfg.minimization.body.try_blank_values
    let blk :=
      if doBlank then
        try_blank_body_values cc cfg.minimization.body net request final_headers baseline
          body_kind fb.2.1 s4
      else (s4, none)
    let fin : Option String × ResponseSnapshot × Bool :=
      match blk.2 with
      | none => (fb.2.1, fb.2.2.1, fb.2.2.2)
      | some (b, r) => (b, r, equivalent cc baseline r)
    (blk.1, baseline,
      { headers := final_headers, body_text := fin.1, response := some fin.2.1,
        matched := fin.2.2, header_candidates := hout.candidates,
        body_candidates := bout.candidates, minimized_headers := final_headers.length,
        minimized_body_fields := count_body_fields body_kind fin.1 })

/-- A healthy snapshot whose body is the given string (concrete-scenario
helper). -/
def okSnap (b : String) : ResponseSnapshot :=
  { status_code := some 200, body := some b, error := none }

/-- A comparator policy whose only enabled signal requires the substring
`GOOD` in the candidate body (concrete-scenario helper). -/
def ccGood : ComparatorConfig :=
  { status_code := false, length_check := false, length_tolerance := 0,
    need_all := ["GOOD"], need_any := [], regex := [], logic := "AND" }

/-- Concrete scenario for the body-reduction claim: a JSON request
`\x7b"a":"1","b":"2","c":"3"\x7d` declared as JSON. -/
def req8 : RequestData :=
  { index := 0, method := "POST", url := "http://host/x", path := "/x", query := [],
    headers := [], body_text := some "\x7b\"a\":\"1\",\"b\":\"2\",\"c\":\"3\"\x7d",
    mime_type := some "application/json" }

/-- Deterministic stateless endpoint for the body-reduction scenario:
answers `GOOD` exactly when the sent body still carries `"c":"3"` —
field `c` is the only load-bearing input. -/
def net8 : Net Unit := fun _ _ body =>
  ((), okSnap (if strContains (body.getD "") "\"c\":\"3\"" then "GOOD" else "BAD"))

/-- Body policy for the body-reduction scenario, parameterized by the
removed-means-absent toggle. -/
def bodyCfg8 (absent : Bool) : BodyConfig :=
  { enabled := true, body_type := "auto", protected_keys := [], only_keys := [],
    treat_empty_as_absent := absent, try_blank_values := false }

/-- Full configuration for the body-reduction scenario: headers phase
disabled, body phase enabled, ample budget. -/
def cfg8 (absent : Bool) : Config :=
  { max_rounds_per_request := 100,
    minimization :=
      { order := ["headers", "body"],
        headers := { enabled := false, protected_names := [], ignore := [],
                     candidate_regex := [] },
        body := bodyCfg8 absent } }

/-- The minimization outcome of the body-reduction scenario. -/
def run8 (absent : Bool) : MinimizationResult :=
  (minimize (cfg8 absent) ccGood net8 req8 ()).2.2

/-- Header policy protecting the (lowered) name `x-a` (concrete scenario
for the fixed-entries invariant). -/
def hcfg2 : HeadersConfig :=
  { enabled := true, protected_names := ["x-a"], ignore := [], candidate_regex := [] }

/-- A request carrying two protected headers with the same name `X-A` and
different values, plus one removable header. -/
def req2 : RequestData :=
  { index := 0, method := "GET", url := "http://host/y", path := "/y", query := [],
    headers := [⟨"X-A", "1"⟩, ⟨"X-A", "2"⟩, ⟨"B", "b"⟩],
    body_text := none, mime_type := none }

/-- An endpoint that always answers `GOOD` and whose state logs every
exchange (header mapping and effective body). -/
def net2 : Net (List (List (String × String) × Option String)) := fun log h b =>
  (log ++ [(h, b)], okSnap "GOOD")

/-- The header-reduction run of the duplicate-protected-name scenario. -/
def run2 : PhaseOut (List (List (String × String) × Option String)) (List Header) :=
  minimize_headers ccGood hcfg2 net2 req2 req2.headers (okSnap "GOOD") 10 []

/-- A stateless endpoint that always answers `GOOD` (witness helper). -/
def netU : Net Unit := fun _ _ _ => ((), okSnap "GOOD")

/-- A stateless endpoint whose every exchange fails at the transport
level: no status, an error description (witness helper for the unhealthy
baseline). -/
def netFail : Net Unit := fun _ _ _ =>
  ((), { status_code := none, body := none, error := some "connection refused" })

/-- Like `req2` but with a single protected header occurrence (witness
scenario for the fixed-entries invariant). -/
def reqW2 : RequestData :=
  { index := 1, method := "GET", url := "http://host/z", path := "/z", query := [],
    headers := [⟨"X-A", "7"⟩, ⟨"B", "b"⟩], body_text := none, mime_type := none }

/-- A state-preserving test function that accepts every removal
(witness helper for the engine claims). -/
def tAlways : Unit → List Nat → Unit × Bool := fun s _ => (s, true)

/-- A state-preserving test function that rejects every removal
(witness helper for the engine claims). -/
def tNever : Unit → List Nat → Unit × Bool := fun s _ => (s, false)

/-- Comparator policy with only the length signal enabled and a negative
tolerance (counterexample input for the oracle-reflexivity claim). -/
def ccNegTol : ComparatorConfig :=
  { status_code := false, length_check := true, length_tolerance := -1,
    need_all := [], need_any := [], regex := [], logic := "AND" }

/-- Comparator policy with only the status signal enabled (witness input
for the oracle-reflexivity claim). -/
def ccStatusOnly : ComparatorConfig :=
  { status_code := true, length_check := false, length_tolerance := 0,
    need_all := [], need_any := [], regex := [], logic := "AND" }

/-- Comparator policy with only the length signal enabled at tolerance
`1/10` (the boundary scenario of the length-closeness claim). -/
def ccTol : ComparatorConfig :=
  { status_code := false, length_check := true, length_tolerance := 1/10,
    need_all := [], need_any := [], regex := [], logic := "AND" }

/-- Whether at least one comparator signal is enabled (the five
enabled-flags of the source's `checks` list, disjoined). -/
def anySignalEnabled (cc : ComparatorConfig) : Bool :=
  cc.status_code || cc.length_check || !cc.need_all.isEmpty
    || !cc.need_any.isEmpty || !cc.regex.isEmpty

/-- Every exchange recorded in a logged network state sends a header
argument that is the name-to-value conversion of some header list. -/
def sentHeadersMapped {σ : Type}
    (st : σ × List (List (String × String) × Option String)) : Prop :=
  ∀ e ∈ st.2, ∃ hl : List Header, e.1 = headersListToDict hl

/-! Theorems.  First the generic lemma stack about the engine
(`_ddmin`), then the claim theorems. -/

theorem mem_chunkStarts_lt {len size i : Nat} (h : i ∈ chunkStarts len size) : i < len := by
  have h2 := List.mem_filter.mp h
  exact List.mem_range.mp h2.1

theorem zero_mem_chunkStarts {len size : Nat} (h : 0 < len) : 0 ∈ chunkStarts len size := by
  refine List.mem_filter.mpr ⟨List.mem_range.mpr h, ?_⟩
  simp

theorem chunkStarts_ne_nil {len size : Nat} (h : 0 < len) : chunkStarts len size ≠ [] := by
  intro hnil
  have := @zero_mem_chunkStarts len size h
  rw [hnil] at this
  exact List.not_mem_nil 0 this

theorem remainder_sublist {α : Type} (c : List α) (a b : Nat) (hab : a ≤ b) :
    (c.take a ++ c.drop b).Sublist c := by
  have h2 : (c.take a ++ c.drop b).Sublist (c.take a ++ c.drop a) := by
    have h1 : c.drop b = List.drop (b - a) (c.drop a) := by
      rw [List.drop_drop]
      congr 1
      omega
    rw [h1]
    exact List.Sublist.append_left (List.drop_sublist _ _) _
  rwa [List.take_append_drop] at h2

theorem remainder_length_lt {α : Type} (c : List α) (start size : Nat)
    (hstart : start < c.length) (hsize : 1 ≤ size) :
    (c.take start ++ c.drop (start + size)).length < c.length := by
  simp only [List.length_append, List.length_take, List.length_drop]
  omega

theorem scanChunks_inv {α σ : Type} (test : σ → List α → σ × Bool) (mt : Option Int)
    (c : List α) (size : Nat) (Q : σ → Prop)
    (hpres : ∀ s r, r.Sublist c → Q s → Q (test s r).1) (hsize : 1 ≤ size) :
    ∀ starts : List Nat, (∀ i ∈ starts, i < c.length) → ∀ s tests, Q s →
      (match scanChunks test mt c size starts s tests with
       | .removed r s2 _ => r.Sublist c ∧ r.length < c.length ∧ Q s2
       | .noRemoval s2 _ => Q s2
       | .exhausted s2 _ => Q s2) := by
  intro starts
  induction starts with
  | nil =>
    intro _ s tests hQ
    simpa only [scanChunks] using hQ
  | cons start rest ih =>
    intro hlt s tests hQ
    simp only [scanChunks]
    cases hb : budgetHit mt tests with
    | true =>
      simp only [hb, if_true]
      exact hQ
    | false =>
      simp only [hb, Bool.false_eq_true, if_false]
      cases ht : (test s (List.take start c ++ List.drop (start + size) c)).2 with
      | true =>
        simp only [ht, if_true]
        exact ⟨remainder_sublist c start (start + size) (by omega),
          remainder_length_lt c start size (hlt start (by simp)) hsize,
          hpres s _ (remainder_sublist c start (start + size) (by omega)) hQ⟩
      | false =>
        simp only [ht, Bool.false_eq_true, if_false]
        exact ih (fun i hi => hlt i (by simp [hi])) _ _
          (hpres s _ (remainder_sublist c start (start + size) (by omega)) hQ)

theorem subset_size_pos {len n : Nat} (hlen : 1 ≤ len) (hn : 2 ≤ n) :
    1 ≤ (len + n - 1) / n := by
  rw [Nat.one_le_div_iff (by omega)]
  omega

theorem ddminLoop_main {α σ : Type} (test : σ → List α → σ × Bool) (mt : Option Int)
    (c0 : List α) (Q : σ → Prop)
    (hpres : ∀ s r, r.Sublist c0 → Q s → Q (test s r).1) :
    ∀ (fuel : Nat) (c : List α) (n tests : Nat) (s : σ), c.Sublist c0 → 2 ≤ n → Q s →
      (ddminLoop test mt fuel c n tests s).1.Sublist c
        ∧ Q (ddminLoop test mt fuel c n tests s).2.2 := by
  intro fuel
  induction fuel with
  | zero =>
    intro c n tests s hc hn hQ
    exact ⟨List.Sublist.refl c, hQ⟩
  | succ fuel ih =>
    intro c n tests s hc hn hQ
    simp only [ddminLoop]
    by_cases hlen : c.length < 1
    · simp only [if_pos hlen]
      exact ⟨List.Sublist.refl c, hQ⟩
    · simp only [if_neg hlen]
      have hsize : 1 ≤ (c.length + n - 1) / n := subset_size_pos (by omega) hn
      have hpres2 : ∀ s r, r.Sublist c → Q s → Q (test s r).1 :=
        fun s r hr hQ2 => hpres s r (hr.trans hc) hQ2
      have hscan := scanChunks_inv test mt c ((c.length + n - 1) / n) Q hpres2 hsize
        (chunkStarts c.length ((c.length + n - 1) / n))
        (fun i hi => mem_chunkStarts_lt hi) s tests hQ
      cases hsc : scanChunks test mt c ((c.length + n - 1) / n)
          (chunkStarts c.length ((c.length + n - 1) / n)) s tests with
      | exhausted s2 tests2 =>
        rw [hsc] at hscan
        exact ⟨List.Sublist.refl c, hscan⟩
      | removed r s2 tests2 =>
        rw [hsc] at hscan
        obtain ⟨hrc, _, hQ2⟩ := hscan
        have hrec := ih r (max (n - 1) 2) tests2 s2 (hrc.trans hc) (by omega) hQ2
        exact ⟨hrec.1.trans hrc, hrec.2⟩
      | noRemoval s2 tests2 =>
        rw [hsc] at hscan
        by_cases hnl : c.length ≤ n
        · simp only [if_pos hnl]
          exact ⟨List.Sublist.refl c, hscan⟩
        · simp only [if_neg hnl]
          exact ih c (min c.length (n * 2)) tests2 s2 hc (by omega) hscan

theorem ddmin_state_inv {α σ : Type} (items : List α) (test : σ → List α → σ × Bool)
    (mt : Option Int) (s : σ) (Q : σ → Prop) (hQ : Q s)
    (hpres : ∀ s2 r, r.Sublist items → Q s2 → Q (test s2 r).1) :
    Q (ddmin items test mt s).2.2 := by
  unfold ddmin
  split
  · exact hQ
  · split
    · exact hQ
    · exact (ddminLoop_main test mt items Q hpres (ddminFuel items.length) items 2 0 s
        (List.Sublist.refl items) (by omega) hQ).2

theorem scanChunks_tests_le {α σ : Type} (test : σ → List α → σ × Bool) (b : Int)
    (c : List α) (size : Nat) :
    ∀ (starts : List Nat) (s : σ) (tests : Nat), (tests : Int) ≤ b →
      (match scanChunks test (some b) c size starts s tests with
       | .removed _ _ t2 => (t2 : Int) ≤ b
       | .noRemoval _ t2 => (t2 : Int) ≤ b
       | .exhausted _ t2 => (t2 : Int) ≤ b) := by
  intro starts
  induction starts with
  | nil =>
    intro s tests h
    simpa only [scanChunks] using h
  | cons start rest ih =>
    intro s tests h
    simp only [scanChunks]
    cases hb : budgetHit (some b) tests with
    | true =>
      simp only [hb, if_true]
      exact h
    | false =>
      have hlt : (tests : Int) < b := by
        simp only [budgetHit, decide_eq_false_iff_not, not_le] at hb
        exact hb
      simp only [hb, Bool.false_eq_true, if_false]
      cases ht : (test s (List.take start c ++ List.drop (start + size) c)).2 with
      | true =>
        simp only [ht, if_true]
        push_cast
        omega
      | false =>
        simp only [ht, Bool.false_eq_true, if_false]
        exact ih _ _ (by push_cast; omega)

theorem ddminLoop_tests_le {α σ : Type} (test : σ → List α → σ × Bool) (b : Int) :
    ∀ (fuel : Nat) (c : List α) (n tests : Nat) (s : σ), (tests : Int) ≤ b →
      (((ddminLoop test (some b) fuel c n tests s).2.1 : Int)) ≤ b := by
  intro fuel
  induction fuel with
  | zero =>
    intro c n tests s h
    exact h
  | succ fuel ih =>
    intro c n tests s h
    simp only [ddminLoop]
    by_cases hlen : c.length < 1
    · simp only [if_pos hlen]
      exact h
    · simp only [if_neg hlen]
      have hscan := scanChunks_tests_le test b c ((c.length + n - 1) / n)
        (chunkStarts c.length ((c.length + n - 1) / n)) s tests h
      cases hsc : scanChunks test (some b) c ((c.length + n - 1) / n)
          (chunkStarts c.length ((c.length + n - 1) / n)) s tests with
      | exhausted s2 tests2 =>
        rw [hsc] at hscan
        exact hscan
      | removed r s2 tests2 =>
        rw [hsc] at hscan
        exact ih _ _ _ _ hscan
      | noRemoval s2 tests2 =>
        rw [hsc] at hscan
        by_cases hnl : c.length ≤ n
        · simp only [if_pos hnl]
          exact hscan
        · simp only [if_neg hnl]
          exact ih _ _ _ _ hscan

theorem scanChunks_log {α σ : Type} (test : σ → List α → σ × Bool) (mt : Option Int)
    (c : List α) (size : Nat) :
    ∀ (starts : List Nat) (st : σ × List (List α)) (tests : Nat),
      (match scanChunks (loggingTest test) mt c size starts st tests with
       | .removed _ st2 t2 => st2.2.length + tests = t2 + st.2.length
       | .noRemoval st2 t2 => st2.2.length + tests = t2 + st.2.length
       | .exhausted st2 t2 => st2.2.length + tests = t2 + st.2.length) := by
  intro starts
  induction starts with
  | nil =>
    intro st tests
    simp only [scanChunks]
    omega
  | cons start rest ih =>
    intro st tests
    simp only [scanChunks]
    cases hb : budgetHit mt tests with
    | true =>
      simp only [hb, if_true]
      omega
    | false =>
      simp only [hb, Bool.false_eq_true, if_false, loggingTest]
      cases ht : (test st.1 (List.take start c ++ List.drop (start + size) c)).2 with
      | true =>
        simp only [ht, if_true, List.length_append, List.length_cons, List.length_nil]
        omega
      | false =>
        simp only [ht, Bool.false_eq_true, if_false]
        have := ih ((test st.1 (List.take start c ++ List.drop (start + size) c)).1,
          st.2 ++ [List.take start c ++ List.drop (start + size) c]) (tests + 1)
        revert this
        cases scanChunks (loggingTest test) mt c size rest
            ((test st.1 (List.take start c ++ List.drop (start + size) c)).1,
             st.2 ++ [List.take start c ++ List.drop (start + size) c]) (tests + 1) with
        | removed r st2 t2 => intro h; simp only [List.length_append, List.length_cons,
            List.length_nil] at h; omega
        | noRemoval st2 t2 => intro h; simp only [List.length_append, List.length_cons,
            List.length_nil] at h; omega
        | exhausted st2 t2 => intro h; simp only [List.length_append, List.length_cons,
            List.length_nil] at h; omega

theorem ddminLoop_log {α σ : Type} (test : σ → List α → σ × Bool) (mt : Option Int) :
    ∀ (fuel : Nat) (c : List α) (n tests : Nat) (st : σ × List (List α)),
      (ddminLoop (loggingTest test) mt fuel c n tests st).2.2.2.length + tests
        = (ddminLoop (loggingTest test) mt fuel c n tests st).2.1 + st.2.length := by
  intro fuel
  induction fuel with
  | zero =>
    intro c n tests st
    simp only [ddminLoop]
    omega
  | succ fuel ih =>
    intro c n tests st
    simp only [ddminLoop]
    by_cases hlen : c.length < 1
    · simp only [if_pos hlen]
      omega
    · simp only [if_neg hlen]
      have hscan := scanChunks_log test mt c ((c.length + n - 1) / n)
        (chunkStarts c.length ((c.length + n - 1) / n)) st tests
      cases hsc : scanChunks (loggingTest test) mt c ((c.length + n - 1) / n)
          (chunkStarts c.length ((c.length + n - 1) / n)) st tests with
      | exhausted st2 t2 =>
        rw [hsc] at hscan
        dsimp only
        omega
      | removed r st2 t2 =>
        rw [hsc] at hscan
        dsimp only
        have := ih r (max (n - 1) 2) t2 st2
        omega
      | noRemoval st2 t2 =>
        rw [hsc] at hscan
        dsimp only
        by_cases hnl : c.length ≤ n
        · simp only [if_pos hnl]
          omega
        · simp only [if_neg hnl]
          have := ih c (min c.length (n * 2)) t2 st2
          omega

theorem ddminMeasure_removed {L2 L n2 n : Nat} (h : L2 < L) :
    ddminMeasure L2 n2 < ddminMeasure L n := by
  unfold ddminMeasure
  calc L2 * (L2 + 2) + (L2 - n2) ≤ L2 * (L2 + 2) + L2 := by omega
    _ = L2 * (L2 + 3) := by ring
    _ < (L2 + 1) * (L2 + 3) := Nat.mul_lt_mul_of_pos_right (by omega) (by omega)
    _ ≤ L * (L + 2) := Nat.mul_le_mul (by omega) (by omega)
    _ ≤ L * (L + 2) + (L - n) := Nat.le_add_right _ _

theorem ddminMeasure_grow {L n : Nat} (hn : 2 ≤ n) (hlt : n < L) :
    ddminMeasure L (min L (n * 2)) < ddminMeasure L n := by
  unfold ddminMeasure
  have h : L - min L (n * 2) < L - n := by omega
  exact Nat.add_lt_add_left h _

theorem ddminLoop_fuel_irrel {α σ : Type} (test : σ → List α → σ × Bool) (mt : Option Int) :
    ∀ (f1 f2 : Nat) (c : List α) (n tests : Nat) (s : σ), 2 ≤ n →
      ddminMeasure c.length n < f1 → ddminMeasure c.length n < f2 →
      ddminLoop test mt f1 c n tests s = ddminLoop test mt f2 c n tests s := by
  intro f1
  induction f1 with
  | zero =>
    intro f2 c n tests s hn h1 h2
    exact absurd h1 (Nat.not_lt_zero _)
  | succ f1 ih =>
    intro f2 c n tests s hn h1 h2
    cases f2 with
    | zero => exact absurd h2 (Nat.not_lt_zero _)
    | succ f2 =>
      simp only [ddminLoop]
      by_cases hlen : c.length < 1
      · simp only [if_pos hlen]
      · simp only [if_neg hlen]
        have hscan := scanChunks_inv test mt c ((c.length + n - 1) / n) (fun _ => True)
          (fun _ _ _ _ => trivial) (subset_size_pos (by omega) hn)
          (chunkStarts c.length ((c.length + n - 1) / n))
          (fun i hi => mem_chunkStarts_lt hi) s tests trivial
        cases hsc : scanChunks test mt c ((c.length + n - 1) / n)
            (chunkStarts c.length ((c.length + n - 1) / n)) s tests with
        | exhausted s2 t2 => rfl
        | removed r s2 t2 =>
          rw [hsc] at hscan
          obtain ⟨-, hrlen, -⟩ := hscan
          have hm : ddminMeasure r.length (max (n - 1) 2) < ddminMeasure c.length n :=
            ddminMeasure_removed hrlen
          exact ih f2 r (max (n - 1) 2) t2 s2 (by omega)
            (lt_of_lt_of_le hm (by omega)) (lt_of_lt_of_le hm (by omega))
        | noRemoval s2 t2 =>
          by_cases hnl : c.length ≤ n
          · simp only [if_pos hnl]
          · simp only [if_neg hnl]
            have hm : ddminMeasure c.length (min c.length (n * 2)) < ddminMeasure c.length n :=
              ddminMeasure_grow hn (by omega)
            exact ih f2 c (min c.length (n * 2)) t2 s2 (by omega)
              (lt_of_lt_of_le hm (by omega)) (lt_of_lt_of_le hm (by omega))

theorem ddminLoop_exhaust {α σ : Type} (test : σ → List α → σ × Bool) (b : Int)
    (fuel : Nat) (c : List α) (n tests : Nat) (s : σ)
    (hc : c ≠ []) (hb : b ≤ (tests : Int)) :
    ddminLoop test (some b) (fuel + 1) c n tests s = (c, tests, s) := by
  simp only [ddminLoop]
  have hlen : ¬ c.length < 1 := by
    cases c with
    | nil => exact absurd rfl hc
    | cons a l => simp
  simp only [if_neg hlen]
  obtain ⟨st, rest, hst⟩ : ∃ st rest,
      chunkStarts c.length ((c.length + n - 1) / n) = st :: rest := by
    cases hcs : chunkStarts c.length ((c.length + n - 1) / n) with
    | nil => exact absurd hcs (chunkStarts_ne_nil (by omega))
    | cons a l => exact ⟨a, l, rfl⟩
  rw [hst]
  simp only [scanChunks]
  have hbh : budgetHit (some b) tests = true := by
    simp only [budgetHit, decide_eq_true_eq, ge_iff_le]
    exact hb
  simp only [hbh, if_true]

/-- C3: for every input sequence, predicate and budget, `_ddmin` returns
a subsequence of the input (its elements in their original relative
order); an empty input returns empty with zero tests; a non-positive
budget returns the input unchanged with zero tests. -/
theorem ddmin_subsequence_contract {α σ : Type} (items : List α)
    (test : σ → List α → σ × Bool) (mt : Option Int) (s : σ) :
    (ddmin items test mt s).1.Sublist items
    ∧ (items = [] → ddmin items test mt s = ([], 0, s))
    ∧ (∀ b : Int, b ≤ 0 → ddmin items test (some b) s = (items, 0, s)) := by
  refine ⟨?_, ?_, ?_⟩
  · unfold ddmin
    split
    · exact List.nil_sublist items
    · split
      · exact List.Sublist.refl items
      · exact (ddminLoop_main test mt items (fun _ => True) (fun _ _ _ _ => trivial)
          (ddminFuel items.length) items 2 0 s (List.Sublist.refl items) (by omega) trivial).1
  · intro h
    subst h
    simp [ddmin]
  · intro b hb
    unfold ddmin
    split
    · next hempty =>
      rw [List.isEmpty_iff.mp hempty]
    · split
      · rfl
      · next hbn =>
        exfalso
        exact hbn (by simp [budgetNonPositive, hb])

/-- C3 witness: the contract applied at concrete inputs — a two-element
run, the empty input, and a negative budget. -/
theorem ddmin_subsequence_contract_witness :
    (ddmin [1, 2] tNever none ()).1.Sublist [1, 2]
    ∧ ddmin ([] : List Nat) tNever none () = ([], 0, ())
    ∧ ddmin [1, 2] tNever (some (-1)) () = ([1, 2], 0, ()) :=
  ⟨(ddmin_subsequence_contract [1, 2] tNever none ()).1,
   (ddmin_subsequence_contract ([] : List Nat) tNever none ()).2.1 rfl,
   (ddmin_subsequence_contract [1, 2] tNever (some (-1)) ()).2.2 (-1) (by norm_num)⟩

/-- C4: every predicate call consumes exactly one budget unit (the log of
predicate calls is as long as the reported test count); with a positive
budget `b` the reported count never exceeds `b`; and once the budget is
reached, the loop returns the current (partially reduced) collection
immediately. -/
theorem ddmin_budget_contract {α σ : Type} :
    (∀ (items : List α) (test : σ → List α → σ × Bool) (mt : Option Int) (s : σ),
       (ddmin items (loggingTest test) mt (s, [])).2.2.2.length
         = (ddmin items (loggingTest test) mt (s, [])).2.1)
    ∧ (∀ (items : List α) (test : σ → List α → σ × Bool) (b : Int) (s : σ), 0 < b →
       ((ddmin items test (some b) s).2.1 : Int) ≤ b)
    ∧ (∀ (test : σ → List α → σ × Bool) (b : Int) (fuel : Nat) (c : List α) (n tests : Nat)
        (s : σ), c ≠ [] → b ≤ (tests : Int) →
       ddminLoop test (some b) (fuel + 1) c n tests s = (c, tests, s)) := by
  refine ⟨?_, ?_, ?_⟩
  · intro items test mt s
    unfold ddmin
    split
    · simp
    · split
      · simp
      · have h := ddminLoop_log test mt (ddminFuel items.length) items 2 0 (s, [])
        simpa using h
  · intro items test b s hb
    unfold ddmin
    split
    · simp
      omega
    · split
      · simp
        omega
      · exact ddminLoop_tests_le test b (ddminFuel items.length) items 2 0 s (by simp; omega)
  · intro test b fuel c n tests s hc hb
    exact ddminLoop_exhaust test b fuel c n tests s hc hb

/-- C4 witness: the budget contract applied at concrete inputs — a logged
always-accepting run, a budget-2 bound, and mid-round exhaustion keeping
the current collection. -/
theorem ddmin_budget_contract_witness :
    (ddmin [1, 2, 3] (loggingTest tAlways) (some 2) ((), [])).2.2.2.length
      = (ddmin [1, 2, 3] (loggingTest tAlways) (some 2) ((), [])).2.1
    ∧ ((ddmin [1, 2, 3] tAlways (some 2) ()).2.1 : Int) ≤ 2
    ∧ ddminLoop tNever (some 2) (4 + 1) [1, 2] 2 4 () = ([1, 2], 4, ()) :=
  ⟨ddmin_budget_contract.1 [1, 2, 3] tAlways (some 2) (),
   ddmin_budget_contract.2.1 [1, 2, 3] tAlways 2 () (by norm_num),
   ddmin_budget_contract.2.2 tNever 2 4 [1, 2] 2 4 () (by simp) (by norm_num)⟩

/-- C10: the engine terminates on every finite input even without a
budget: its loop stabilizes once the fuel reaches `ddminFuel` (which
strictly dominates the loop measure — each round either strictly shrinks
the collection or strictly grows the granularity, capped at the
collection length), so running with any surplus fuel returns exactly
`ddmin`'s result. -/
theorem ddmin_terminates_without_budget {α σ : Type} (items : List α)
    (test : σ → List α → σ × Bool) (s : σ) (fuel : Nat)
    (hfuel : ddminFuel items.length ≤ fuel) :
    ddminLoop test none fuel items 2 0 s = ddmin items test none s := by
  have hmeas : ddminMeasure items.length 2 < ddminFuel items.length := by
    unfold ddminMeasure ddminFuel
    calc items.length * (items.length + 2) + (items.length - 2)
        ≤ items.length * (items.length + 2) + items.length := by omega
      _ = items.length * (items.length + 3) := by ring
      _ < (items.length + 1) * (items.length + 3) :=
          Nat.mul_lt_mul_of_pos_right (by omega) (by omega)
  unfold ddmin
  split
  · next hempty =>
    rw [List.isEmpty_iff.mp hempty]
    rw [List.isEmpty_iff.mp hempty] at hfuel
    cases fuel with
    | zero => simp [ddminFuel] at hfuel
    | succ f => simp [ddminLoop]
  · split
    · next hbn => simp [budgetNonPositive] at hbn
    · exact ddminLoop_fuel_irrel test none fuel (ddminFuel items.length) items 2 0 s
        (by omega) (lt_of_lt_of_le hmeas hfuel) hmeas

/-- C10 witness: stabilization applied at a concrete two-element input
with surplus fuel. -/
theorem ddmin_terminates_without_budget_witness :
    ddminFuel 2 ≤ 20 ∧ ddminLoop tAlways none 20 [1, 2] 2 0 () = ddmin [1, 2] tAlways none () :=
  ⟨by decide, ddmin_terminates_without_budget [1, 2] tAlways () 20 (by decide)⟩

/-- C7: the length-closeness signal passes exactly when the relative
delta is within the tolerance, a zero-length baseline requiring a
zero-length candidate; at baseline length 100 and tolerance 1/10 a
candidate of length 110 passes and one of length 111 fails; two
zero-length bodies pass regardless of the tolerance. -/
theorem lengthWithin_boundary :
    (∀ (cc : ComparatorConfig) (base cand : ResponseSnapshot),
       lengthWithin cc base cand = true ↔
         (if base.length = 0 then cand.length = 0
          else |((base.length : ℚ) - (cand.length : ℚ))| / (base.length : ℚ)
            ≤ cc.length_tolerance))
    ∧ lengthWithin ccTol (okSnap (String.mk (List.replicate 100 'a')))
        (okSnap (String.mk (List.replicate 110 'a'))) = true
    ∧ lengthWithin ccTol (okSnap (String.mk (List.replicate 100 'a')))
        (okSnap (String.mk (List.replicate 111 'a'))) = false
    ∧ (∀ t : ℚ, lengthWithin { ccTol with length_tolerance := t } (okSnap "") (okSnap "") = true) := by
  refine ⟨?_, ?_, ?_, ?_⟩
  · intro cc base cand
    unfold lengthWithin
    split
    · next h => simp [h, decide_eq_true_eq]
    · next h => simp [h, decide_eq_true_eq]
  · have h100 : (okSnap (String.mk (List.replicate 100 'a'))).length = 100 := by
      simp [okSnap, ResponseSnapshot.length, String.length]
    have h110 : (okSnap (String.mk (List.replicate 110 'a'))).length = 110 := by
      simp [okSnap, ResponseSnapshot.length, String.length]
    unfold lengthWithin
    rw [h100, h110]
    norm_num [ccTol]
  · have h100 : (okSnap (String.mk (List.replicate 100 'a'))).length = 100 := by
      simp [okSnap, ResponseSnapshot.length, String.length]
    have h111 : (okSnap (String.mk (List.replicate 111 'a'))).length = 111 := by
      simp [okSnap, ResponseSnapshot.length, String.length]
    unfold lengthWithin
    rw [h100, h111]
    norm_num [ccTol]
  · intro t
    unfold lengthWithin
    simp [okSnap, ResponseSnapshot.length]

theorem statusEqual_self (s : ResponseSnapshot) : statusEqual s s = true := by
  simp [statusEqual]

theorem lengthWithin_self (cc : ComparatorConfig) (s : ResponseSnapshot)
    (h : 0 ≤ cc.length_tolerance) : lengthWithin cc s s = true := by
  unfold lengthWithin
  split
  · next h0 => simp [h0]
  · simp only [sub_self, abs_zero, zero_div, decide_eq_true_eq]
    exact h

/-- C6 (amended): for a healthy snapshot satisfying its own configured
requirements, `equivalent(s, s)` holds when at least one signal is
enabled, provided the length tolerance is nonnegative (the claim as
stated fails for a negative tolerance, see the counterexample); with zero
signals enabled every pair of healthy snapshots is equivalent; and
either snapshot unhealthy forces inequivalence. -/
theorem equivalent_reflexivity_amended (cc : ComparatorConfig) (s a b : ResponseSnapshot) :
    (s.ok = true → 0 ≤ cc.length_tolerance →
      (cc.need_all ≠ [] → needAll cc s = true) →
      (cc.need_any ≠ [] → needAny cc s = true) →
      (cc.regex ≠ [] → regexMatch cc s = true) →
      anySignalEnabled cc = true →
      equivalent cc s s = true)
    ∧ (anySignalEnabled cc = false → a.ok = true → b.ok = true → equivalent cc a b = true)
    ∧ ((a.ok = false ∨ b.ok = false) → equivalent cc a b = false) := by
  refine ⟨?_, ?_, ?_⟩
  · intro hok htol hna hny hrx _
    have h1 := statusEqual_self s
    have h2 := lengthWithin_self cc s htol
    have h3 : cc.need_all.isEmpty = false → needAll cc s = true := by
      intro h
      apply hna
      intro hnil
      rw [hnil] at h
      simp at h
    have h4 : cc.need_any.isEmpty = false → needAny cc s = true := by
      intro h
      apply hny
      intro hnil
      rw [hnil] at h
      simp at h
    have h5 : cc.regex.isEmpty = false → regexMatch cc s = true := by
      intro h
      apply hrx
      intro hnil
      rw [hnil] at h
      simp at h
    cases hf1 : cc.status_code <;> cases hf2 : cc.length_check <;>
      cases hf3 : cc.need_all.isEmpty <;> cases hf4 : cc.need_any.isEmpty <;>
      cases hf5 : cc.regex.isEmpty <;>
      simp_all [equivalent, ite_self]
  · intro hz hoa hob
    simp only [anySignalEnabled, Bool.or_eq_false_iff] at hz
    obtain ⟨⟨⟨⟨hz1, hz2⟩, hz3⟩, hz4⟩, hz5⟩ := hz
    rw [Bool.not_eq_false'] at hz3 hz4 hz5
    unfold equivalent
    simp [hoa, hob, hz1, hz2, hz3, hz4, hz5]
  · intro hab
    unfold equivalent
    rcases hab with h | h <;> simp [h]

/-- C6 counterexample: with only the length signal enabled and a negative
tolerance, a healthy snapshot vacuously satisfying every substring and
pattern requirement is not equivalent to itself — refuting the claim as
stated. -/
theorem equivalent_reflexivity_counterexample :
    (okSnap "x").ok = true
    ∧ anySignalEnabled ccNegTol = true
    ∧ equivalent ccNegTol (okSnap "x") (okSnap "x") = false := by
  refine ⟨by decide, by decide, ?_⟩
  have hlw : lengthWithin ccNegTol (okSnap "x") (okSnap "x") = false := by
    have hlen1 : (okSnap "x").length = 1 := by decide
    unfold lengthWithin
    rw [hlen1]
    norm_num [ccNegTol]
  unfold equivalent
  rw [hlw]
  decide

/-- C6 witness: the amended reflexivity applied at a status-only policy
and a healthy snapshot, and inequivalence applied at an unhealthy
candidate. -/
theorem equivalent_reflexivity_amended_witness :
    equivalent ccStatusOnly (okSnap "x") (okSnap "x") = true
    ∧ equivalent ccStatusOnly (okSnap "x")
        { status_code := none, body := none, error := some "e" } = false :=
  ⟨(equivalent_reflexivity_amended ccStatusOnly (okSnap "x") (okSnap "x") (okSnap "x")).1
      (by decide) (by decide) (by decide) (by decide) (fun h => absurd rfl h) (by decide),
   (equivalent_reflexivity_amended ccStatusOnly (okSnap "x") (okSnap "x")
      { status_code := none, body := none, error := some "e" }).2.2 (Or.inr (by decide))⟩

/-- C1: when the cross-validation response is equivalent to baseline no
fallback branch runs and the jointly-reduced state is kept with
`matched=true`; otherwise exactly one branch of the cascade applies, in
order: the best-known body state with the reduced headers, the best-known
header state with the original body, or — unconditionally, without
consulting the oracle — the untouched originals with the baseline
response, always `matched=true`. -/
theorem fallback_cascade_exclusive (cc : ComparatorConfig) (request : RequestData)
    (original_headers : List Header) (baseline : ResponseSnapshot)
    (fh : List Header) (fb : Option String) (fr : ResponseSnapshot)
    (bhc : List Header × ResponseSnapshot) (bbc : Option String × ResponseSnapshot) :
    (equivalent cc baseline fr = true →
      fallbackCascade cc request original_headers baseline fh fb fr bhc bbc
        = (fh, fb, fr, true))
    ∧ (equivalent cc baseline fr = false →
        ((equivalent cc baseline bbc.2 = true →
           fallbackCascade cc request original_headers baseline fh fb fr bhc bbc
             = (fh, bbc.1, bbc.2, true))
         ∧ (equivalent cc baseline bbc.2 = false → equivalent cc baseline bhc.2 = true →
           fallbackCascade cc request original_headers baseline fh fb fr bhc bbc
             = (bhc.1, request.body_text, bhc.2, true))
         ∧ (equivalent cc baseline bbc.2 = false → equivalent cc baseline bhc.2 = false →
           fallbackCascade cc request original_headers baseline fh fb fr bhc bbc
             = (original_headers, request.body_text, baseline, true)))) := by
  constructor
  · intro h
    simp [fallbackCascade, h]
  · intro h
    refine ⟨?_, ?_, ?_⟩
    · intro h1
      simp [fallbackCascade, h, h1]
    · intro h1 h2
      simp [fallbackCascade, h, h1, h2]
    · intro h1 h2
      simp [fallbackCascade, h, h1, h2]

/-- C1 witness: the cascade applied where cross-validation and both
remembered states fail — the unconditional baseline branch fires with
`matched=true` even though the oracle was never consulted on the
baseline pair. -/
theorem fallback_cascade_exclusive_witness :
    fallbackCascade ccGood req2 req2.headers (okSnap "GOOD") [] none (okSnap "BAD")
      ([⟨"H", "v"⟩], okSnap "BAD") (some "B", okSnap "BAD")
      = (req2.headers, req2.body_text, okSnap "GOOD", true) :=
  ((fallback_cascade_exclusive ccGood req2 req2.headers (okSnap "GOOD") [] none (okSnap "BAD")
      ([⟨"H", "v"⟩], okSnap "BAD") (some "B", okSnap "BAD")).2
    (by decide)).2.2 (by decide) (by decide)

theorem fallbackCascade_matched (cc : ComparatorConfig) (request : RequestData)
    (original_headers : List Header) (baseline : ResponseSnapshot)
    (fh : List Header) (fb : Option String) (fr : ResponseSnapshot)
    (bhc : List Header × ResponseSnapshot) (bbc : Option String × ResponseSnapshot) :
    (fallbackCascade cc request original_headers baseline fh fb fr bhc bbc).2.2.2 = true := by
  simp only [fallbackCascade]
  split
  · next h => simpa using h
  · split
    · rfl
    · split
      · rfl
      · rfl

theorem try_blank_tail_equiv {σ : Type} (cc : ComparatorConfig) (net : Net σ)
    (request : RequestData) (headers : List Header) (baseline : ResponseSnapshot)
    (body_kind : String) (parsed : List (String × String)) (candidate_keys : List String)
    (current_body : Option String) (s : σ) (b : Option String) (r : ResponseSnapshot)
    (h : (if candidate_keys.isEmpty then (s, none)
          else
            let test : (σ × (Option String × Option ResponseSnapshot)) → List String →
                (σ × (Option String × Option ResponseSnapshot)) × Bool := fun st active_keys =>
              let body_text := build_body_text body_kind
                (some (rebuild_blank parsed candidate_keys active_keys))
              let pr := send net request st.1 (headersListToDict headers) body_text
              if equivalent cc baseline pr.2 then ((pr.1, (body_text, some pr.2)), true)
              else ((pr.1, st.2), false)
            let out := ddmin candidate_keys test none (s, (current_body, none))
            let s1 := out.2.2.1
            let best1 := out.2.2.2
            let body_text := build_body_text body_kind
              (some (rebuild_blank parsed candidate_keys out.1))
            let pr := send net request s1 (headersListToDict headers) body_text
            let s2 := pr.1
            let best2 := if equivalent cc baseline pr.2 then (body_text, some pr.2) else best1
            (match best2.2 with
             | some r0 => if best2.1 ≠ current_body then (s2, some (best2.1, r0)) else (s2, none)
             | none => (s2, none)
             : σ × Option (Option String × ResponseSnapshot))).2 = some (b, r)) :
    equivalent cc baseline r = true := by
  split at h
  · simp at h
  · set test : (σ × (Option String × Option ResponseSnapshot)) → List String →
        (σ × (Option String × Option ResponseSnapshot)) × Bool := fun st active_keys =>
      let body_text := build_body_text body_kind
        (some (rebuild_blank parsed candidate_keys active_keys))
      let pr := send net request st.1 (headersListToDict headers) body_text
      if equivalent cc baseline pr.2 then ((pr.1, (body_text, some pr.2)), true)
      else ((pr.1, st.2), false) with htest
    have hinv : ∀ r0, (ddmin candidate_keys test none
        (s, (current_body, none))).2.2.2.2 = some r0 → equivalent cc baseline r0 = true := by
      have hdd := ddmin_state_inv candidate_keys test none (s, (current_body, none))
        (fun st => ∀ r0, st.2.2 = some r0 → equivalent cc baseline r0 = true)
        (by intro r0 hr0; simp at hr0)
        (by
          intro st rr hsub hQ
          rw [htest]
          dsimp only
          split
          · next he =>
            intro r0 hr0
            simp only [Option.some.injEq] at hr0
            rw [← hr0]
            exact he
          · exact hQ)
      exact hdd
    simp only [] at h
    set out := ddmin candidate_keys test none (s, (current_body, none)) with hout
    set bt := build_body_text body_kind (some (rebuild_blank parsed candidate_keys out.1))
      with hbt
    set pr := send net request out.2.2.1 (headersListToDict headers) bt with hpr
    by_cases hC : equivalent cc baseline pr.2 = true
    · rw [if_pos hC] at h
      dsimp only at h
      by_cases hne : bt ≠ current_body
      · rw [if_pos hne] at h
        simp only [Option.some.injEq, Prod.mk.injEq] at h
        obtain ⟨-, hr⟩ := h
        rw [← hr]
        exact hC
      · rw [if_neg hne] at h
        simp at h
    · rw [if_neg hC] at h
      cases hb : out.2.2.2.2 with
      | none =>
        rw [hb] at h
        simp at h
      | some r0 =>
        rw [hb] at h
        dsimp only at h
        by_cases hne : out.2.2.2.1 ≠ current_body
        · rw [if_pos hne] at h
          simp only [Option.some.injEq, Prod.mk.injEq] at h
          obtain ⟨-, hr⟩ := h
          rw [← hr]
          exact hinv r0 hb
        · rw [if_neg hne] at h
          simp at h

theorem try_blank_some_equiv {σ : Type} (cc : ComparatorConfig) (bcfg : BodyConfig)
    (net : Net σ) (request : RequestData) (headers : List Header)
    (baseline : ResponseSnapshot) (body_kind : String) (current_body : Option String)
    (s : σ) (b : Option String) (r : ResponseSnapshot)
    (h : (try_blank_body_values cc bcfg net request headers baseline body_kind
      current_body s).2 = some (b, r)) :
    equivalent cc baseline r = true := by
  unfold try_blank_body_values at h
  split at h
  · simp at h
  · split at h
    · next hk =>
      cases hjl : json_loads_obj (current_body.getD "") with
      | none =>
        rw [hjl] at h
        simp at h
      | some parsed =>
        rw [hjl] at h
        exact try_blank_tail_equiv cc net request headers baseline body_kind parsed
          ((parsed.map Prod.fst).filter (fun k => body_candidate bcfg k))
          current_body s b r h
    · next hk =>
      exact try_blank_tail_equiv cc net request headers baseline body_kind
        (pydict_of_pairs (parse_qsl (current_body.getD "")))
        (((pydict_of_pairs (parse_qsl (current_body.getD ""))).map Prod.fst).filter
          (fun k => body_candidate bcfg k))
        current_body s b r h

theorem try_blank_branch_equiv {σ : Type} (cc : ComparatorConfig) (bcfg : BodyConfig)
    (net : Net σ) (request : RequestData) (headers : List Header)
    (baseline : ResponseSnapshot) (body_kind : String) (current_body : Option String)
    (s : σ) (C : Prop) [Decidable C] (x : σ) (b : Option String) (r : ResponseSnapshot)
    (h : (if C then
            try_blank_body_values cc bcfg net request headers baseline body_kind current_body s
          else (x, none)).2 = some (b, r)) :
    equivalent cc baseline r = true := by
  split at h
  · exact try_blank_some_equiv cc bcfg net request headers baseline body_kind
      current_body s b r h
  · simp at h

theorem minimize_baseline_eq {σ : Type} (cfg : Config) (cc : ComparatorConfig)
    (net : Net σ) (request : RequestData) (s0 : σ) :
    (minimize cfg cc net request s0).2.1
      = (send net request s0 (headersListToDict request.headers) request.body_text).2 := by
  simp only [minimize]
  split <;> rfl

/-- C5: `minimize` reports `matched=false` exactly when the baseline
exchange is unhealthy, in which case the outcome carries the original
headers and body, a header-candidate count equal to the original header
count and a zero body-candidate count; a healthy baseline always ends
with `matched=true`. -/
theorem minimize_matched_iff_baseline {σ : Type} (cfg : Config) (cc : ComparatorConfig)
    (net : Net σ) (request : RequestData) (s0 : σ) :
    ((minimize cfg cc net request s0).2.2.matched = false
      ↔ (minimize cfg cc net request s0).2.1.ok = false)
    ∧ ((minimize cfg cc net request s0).2.1.ok = false →
        (minimize cfg cc net request s0).2.2.headers = request.headers
        ∧ (minimize cfg cc net request s0).2.2.body_text = request.body_text
        ∧ (minimize cfg cc net request s0).2.2.header_candidates = request.headers.length
        ∧ (minimize cfg cc net request s0).2.2.body_candidates = 0) := by
  by_cases hok : (send net request s0 (headersListToDict request.headers)
      request.body_text).2.ok = true
  · have hbl : (minimize cfg cc net request s0).2.1.ok = true := by
      rw [minimize_baseline_eq]
      exact hok
    have hmt : (minimize cfg cc net request s0).2.2.matched = true := by
      simp only [minimize]
      rw [if_neg (by simp [hok])]
      dsimp only
      split
      · exact fallbackCascade_matched _ _ _ _ _ _ _ _ _
      · rename_i b2 r2 heq
        dsimp only
        exact try_blank_branch_equiv _ _ _ _ _ _ _ _ _ _ _ b2 r2 heq
    constructor
    · rw [hmt, hbl]
    · intro hcontra
      rw [hbl] at hcontra
      simp at hcontra
  · have hokf : (send net request s0 (headersListToDict request.headers)
        request.body_text).2.ok = false := by
      revert hok
      cases (send net request s0 (headersListToDict request.headers) request.body_text).2.ok <;>
        simp
    have hmin : minimize cfg cc net request s0
        = ((send net request s0 (headersListToDict request.headers) request.body_text).1,
           (send net request s0 (headersListToDict request.headers) request.body_text).2,
           { headers := request.headers, body_text := request.body_text,
             response := some (send net request s0 (headersListToDict request.headers)
               request.body_text).2,
             matched := false, header_candidates := request.headers.length,
             body_candidates := 0, minimized_headers := request.headers.length,
             minimized_body_fields := 0 }) := by
      simp only [minimize]
      rw [if_pos (by simp [hokf])]
    rw [hmin]
    refine ⟨by simp [hokf], fun _ => ⟨rfl, rfl, rfl, rfl⟩⟩

/-- C5 witness: the characterization applied to a transport that fails
every exchange — the baseline is unhealthy and the outcome keeps the
originals with `matched=false`. -/
theorem minimize_matched_iff_baseline_witness :
    (minimize (cfg8 false) ccGood netFail req8 ()).2.2.matched = false
    ∧ (minimize (cfg8 false) ccGood netFail req8 ()).2.2.headers = req8.headers
    ∧ (minimize (cfg8 false) ccGood netFail req8 ()).2.2.body_text = req8.body_text
    ∧ (minimize (cfg8 false) ccGood netFail req8 ()).2.2.header_candidates
        = req8.headers.length
    ∧ (minimize (cfg8 false) ccGood netFail req8 ()).2.2.body_candidates = 0 :=
  ⟨(minimize_matched_iff_baseline (cfg8 false) ccGood netFail req8 ()).1.mpr (by decide),
   (minimize_matched_iff_baseline (cfg8 false) ccGood netFail req8 ()).2 (by decide)⟩

/-- C8 counterexample: with the removed-means-blank policy the final body
text is `\x7b"c":"3","a":"","b":""\x7d` — not the claimed
`\x7b"a":"","b":"","c":"3"\x7d`: the surviving field is serialized before
the blanked ones, because the rebuild inserts surviving values into the
map before blanking the missing candidate keys. -/
theorem body_reduction_blank_counterexample :
    (run8 false).body_text = some "\x7b\"c\":\"3\",\"a\":\"\",\"b\":\"\"\x7d"
    ∧ (run8 false).body_text ≠ some "\x7b\"a\":\"\",\"b\":\"\",\"c\":\"3\"\x7d" := by
  decide

/-- C8 (amended): with the removed-means-blank policy the produced body
is `\x7b"c":"3","a":"","b":""\x7d`, which decodes to the same key-value
map as the claimed `\x7b"a":"","b":"","c":"3"\x7d` (only the member order
differs); with removed-means-absent the final body is exactly
`\x7b"c":"3"\x7d` as claimed. -/
theorem body_reduction_example_amended :
    (run8 false).body_text = some "\x7b\"c\":\"3\",\"a\":\"\",\"b\":\"\"\x7d"
    ∧ json_loads_obj "\x7b\"c\":\"3\",\"a\":\"\",\"b\":\"\"\x7d"
        = some [("c", "3"), ("a", ""), ("b", "")]
    ∧ json_loads_obj "\x7b\"a\":\"\",\"b\":\"\",\"c\":\"3\"\x7d"
        = some [("a", ""), ("b", ""), ("c", "3")]
    ∧ [("c", "3"), ("a", ""), ("b", "")].Perm [("a", ""), ("b", ""), ("c", "3")]
    ∧ (run8 false).matched = true
    ∧ (run8 true).body_text = some "\x7b\"c\":\"3\"\x7d"
    ∧ (run8 true).matched = true := by
  refine ⟨by decide, by decide, by decide, by decide, by decide, by decide, by decide⟩

theorem str_beq_false {a b : String} (h : ¬ a = b) : (a == b) = false := by
  simp only [beq_eq_false_iff_ne, ne_eq]
  exact h

theorem find?_map_replace_ne (d : List (String × String)) (k v nm : String) (hne : nm ≠ k) :
    (d.map (fun p => if p.1 = k then (k, v) else p)).find? (fun q => q.1 == nm)
      = d.find? (fun q => q.1 == nm) := by
  induction d with
  | nil => rfl
  | cons p d ih =>
    by_cases hp : p.1 = k
    · simp only [List.map_cons, if_pos hp, List.find?_cons]
      have hk : (k == nm) = false := str_beq_false (fun h => hne h.symm)
      have hp2 : (p.1 == nm) = false := str_beq_false (by rw [hp]; exact fun h => hne h.symm)
      rw [hk, hp2]
      exact ih
    · simp only [List.map_cons, if_neg hp, List.find?_cons]
      cases hq : (p.1 == nm) with
      | true => rfl
      | false => exact ih

theorem find?_map_replace_eq (d : List (String × String)) (k v : String)
    (hmem : d.any (fun p => p.1 == k) = true) :
    (d.map (fun p => if p.1 = k then (k, v) else p)).find? (fun q => q.1 == k)
      = some (k, v) := by
  induction d with
  | nil => simp at hmem
  | cons p d ih =>
    by_cases hp : p.1 = k
    · simp only [List.map_cons, if_pos hp, List.find?_cons, beq_self_eq_true]
    · simp only [List.any_cons, Bool.or_eq_true] at hmem
      have hp2 : (p.1 == k) = false := by simp [hp]
      rcases hmem with hmem | hmem
      · rw [hp2] at hmem
        simp at hmem
      · simp only [List.map_cons, if_neg hp, List.find?_cons, hp2]
        exact ih hmem

theorem dictLookup_dictInsert (d : List (String × String)) (k v nm : String) :
    dictLookup (dictInsert d k v) nm = if nm = k then some v else dictLookup d nm := by
  unfold dictInsert dictLookup
  by_cases hmem : d.any (fun p => p.1 == k) = true
  · rw [if_pos hmem]
    by_cases hnk : nm = k
    · subst hnk
      rw [find?_map_replace_eq d nm v hmem, if_pos rfl]
    · rw [find?_map_replace_ne d k v nm hnk, if_neg hnk]
  · rw [if_neg hmem]
    rw [List.find?_append]
    by_cases hnk : nm = k
    · subst hnk
      have hnone : d.find? (fun q => q.1 == nm) = none := by
        rw [List.find?_eq_none]
        intro p hp
        intro hbeq
        apply hmem
        rw [List.any_eq_true]
        exact ⟨p, hp, hbeq⟩
      rw [hnone]
      simp
    · have hk : (k == nm) = false := str_beq_false (fun h => hnk h.symm)
      simp only [List.find?_cons, hk, List.find?_nil]
      cases d.find? (fun q => q.1 == nm) <;> simp [hnk]

theorem dictInsert_keys_nodup (d : List (String × String)) (k v : String)
    (h : (d.map Prod.fst).Nodup) : ((dictInsert d k v).map Prod.fst).Nodup := by
  unfold dictInsert
  by_cases hmem : d.any (fun p => p.1 == k) = true
  · rw [if_pos hmem]
    have hkeys : (d.map (fun p => if p.1 = k then (k, v) else p)).map Prod.fst
        = d.map Prod.fst := by
      rw [List.map_map]
      apply List.map_congr_left
      intro p _
      by_cases hp : p.1 = k
      · simp [hp]
      · simp [hp]
    rw [hkeys]
    exact h
  · rw [if_neg hmem]
    rw [List.map_append]
    rw [List.nodup_append]
    refine ⟨h, by simp, ?_⟩
    intro x hx
    simp only [List.map_cons, List.map_nil, List.mem_singleton]
    intro hxk
    subst hxk
    apply hmem
    rw [List.any_eq_true]
    rw [List.mem_map] at hx
    obtain ⟨p, hp, hpx⟩ := hx
    exact ⟨p, hp, by simp [hpx]⟩

theorem headersListToDict_foldl_nodup (l : List Header) (acc : List (String × String))
    (h : (acc.map Prod.fst).Nodup) :
    ((l.foldl (fun acc h => if h.name = "" then acc else dictInsert acc h.name h.value)
      acc).map Prod.fst).Nodup := by
  induction l generalizing acc with
  | nil => exact h
  | cons hd tl ih =>
    simp only [List.foldl_cons]
    by_cases hn : hd.name = ""
    · rw [if_pos hn]
      exact ih acc h
    · rw [if_neg hn]
      exact ih _ (dictInsert_keys_nodup acc hd.name hd.value h)

theorem headersListToDict_keys_nodup (hl : List Header) :
    ((headersListToDict hl).map Prod.fst).Nodup :=
  headersListToDict_foldl_nodup hl [] (by simp)

theorem headersListToDict_last_wins (hl : List Header) (nm : String) (hnm : nm ≠ "") :
    dictLookup (headersListToDict hl) nm
      = ((hl.filter (fun h => h.name == nm)).getLast?).map Header.value := by
  induction hl using List.reverseRecOn with
  | nil => rfl
  | append_singleton hl h ih =>
    unfold headersListToDict
    rw [List.foldl_append]
    simp only [List.foldl_cons, List.foldl_nil]
    by_cases hn : h.name = ""
    · rw [if_pos hn]
      have hfil : (hl ++ [h]).filter (fun g => g.name == nm)
          = hl.filter (fun g => g.name == nm) := by
        rw [List.filter_append]
        have : (h.name == nm) = false := by
          simp only [beq_eq_false_iff_ne, ne_eq]
          intro hcontra
          exact hnm (by rw [← hcontra, hn])
        simp [List.filter_cons, this]
      rw [hfil]
      exact ih
    · rw [if_neg hn]
      have hli := dictLookup_dictInsert (headersListToDict hl) h.name h.value nm
      unfold headersListToDict at hli
      rw [hli]
      by_cases heq : nm = h.name
      · rw [if_pos heq]
        have hfil : (hl ++ [h]).filter (fun g => g.name == nm)
            = hl.filter (fun g => g.name == nm) ++ [h] := by
          rw [List.filter_append]
          simp [List.filter_cons, heq.symm]
        rw [hfil, List.getLast?_concat]
        rfl
      · rw [if_neg heq]
        have hfil : (hl ++ [h]).filter (fun g => g.name == nm)
            = hl.filter (fun g => g.name == nm) := by
          rw [List.filter_append]
          have : (h.name == nm) = false := by
            simp only [beq_eq_false_iff_ne, ne_eq]
            intro hcontra
            exact heq hcontra.symm
          simp [List.filter_cons, this]
        rw [hfil]
        exact ih

theorem dictLookup_foldl_no_name (B : List Header) (acc : List (String × String)) (nm : String)
    (hB : ∀ g ∈ B, g.name ≠ nm) :
    dictLookup (B.foldl (fun acc h => if h.name = "" then acc else dictInsert acc h.name h.value)
      acc) nm = dictLookup acc nm := by
  induction B generalizing acc with
  | nil => rfl
  | cons hd tl ih =>
    simp only [List.foldl_cons]
    have hhd : hd.name ≠ nm := hB hd (by simp)
    by_cases hn : hd.name = ""
    · rw [if_pos hn]
      exact ih acc (fun g hg => hB g (by simp [hg]))
    · rw [if_neg hn]
      rw [ih _ (fun g hg => hB g (by simp [hg]))]
      rw [dictLookup_dictInsert]
      rw [if_neg (fun hcontra => hhd hcontra.symm)]

theorem dictLookup_append_no_name (A B : List Header) (nm : String)
    (hB : ∀ g ∈ B, g.name ≠ nm) :
    dictLookup (headersListToDict (A ++ B)) nm = dictLookup (headersListToDict A) nm := by
  unfold headersListToDict
  rw [List.foldl_append]
  exact dictLookup_foldl_no_name B _ nm hB

theorem ite_pair_fst {γ δ : Type} (c : Prop) [Decidable c] (x : γ) (y z : δ) :
    ((if c then (x, y) else (x, z)).1) = x := by
  split <;> rfl

theorem send_lognet_inv {σ : Type} (net : Net σ) (request : RequestData)
    (st : σ × List (List (String × String) × Option String)) (hl : List Header)
    (body : Option String) (h : sentHeadersMapped st) :
    sentHeadersMapped (send (loggingNet net) request st (headersListToDict hl) body).1 := by
  intro e he
  simp only [send, loggingNet] at he
  rcases List.mem_append.mp he with h1 | h1
  · exact h e h1
  · simp only [List.mem_singleton] at h1
    subst h1
    exact ⟨hl, rfl⟩

theorem minimize_headers_lognet {σ : Type} (cc : ComparatorConfig) (hcfg : HeadersConfig)
    (net : Net σ) (request : RequestData) (cur : List Header) (base : ResponseSnapshot)
    (mt : Int) (st : σ × List (List (String × String) × Option String))
    (h : sentHeadersMapped st) :
    sentHeadersMapped (minimize_headers cc hcfg (loggingNet net) request cur base mt st).state := by
  unfold minimize_headers
  dsimp only
  split
  · exact h
  · exact ddmin_state_inv _ _ _ _
      (fun (p : (σ × List (List (String × String) × Option String)) ×
          (List Header × ResponseSnapshot)) => sentHeadersMapped p.1) h
      (by
        intro p r hsub hQ
        split <;>
          exact send_lognet_inv net request p.1 _ request.body_text hQ)

theorem minimize_body_lognet {σ : Type} (cc : ComparatorConfig) (bcfg : BodyConfig)
    (net : Net σ) (request : RequestData) (headers : List Header)
    (base : ResponseSnapshot) (mt : Int)
    (st : σ × List (List (String × String) × Option String)) (h : sentHeadersMapped st) :
    sentHeadersMapped (minimize_body cc bcfg (loggingNet net) request headers base mt st).state := by
  unfold minimize_body
  dsimp only
  split
  · exact h
  · split
    · exact h
    · exact ddmin_state_inv _ _ _ _
        (fun (p : (σ × List (List (String × String) × Option String)) ×
            (Option String × ResponseSnapshot)) => sentHeadersMapped p.1) h
        (by
          intro p r hsub hQ
          split <;>
            exact send_lognet_inv net request p.1 headers _ hQ)

theorem try_blank_tail_lognet {σ : Type} (cc : ComparatorConfig) (net : Net σ)
    (request : RequestData) (headers : List Header) (baseline : ResponseSnapshot)
    (body_kind : String) (parsed : List (String × String)) (candidate_keys : List String)
    (current_body : Option String)
    (st : σ × List (List (String × String) × Option String)) (h : sentHeadersMapped st) :
    sentHeadersMapped
      ((if candidate_keys.isEmpty then (st, none)
        else
          let test := fun (p : (σ × List (List (String × String) × Option String)) ×
              (Option String × Option ResponseSnapshot)) (active_keys : List String) =>
            let body_text := build_body_text body_kind
              (some (rebuild_blank parsed candidate_keys active_keys))
            let pr := send (loggingNet net) request p.1 (headersListToDict headers) body_text
            if equivalent cc baseline pr.2 then ((pr.1, (body_text, some pr.2)), true)
            else ((pr.1, p.2), false)
          let out := ddmin candidate_keys test none (st, (current_body, none))
          let s1 := out.2.2.1
          let best1 := out.2.2.2
          let body_text := build_body_text body_kind
            (some (rebuild_blank parsed candidate_keys out.1))
          let pr := send (loggingNet net) request s1 (headersListToDict headers) body_text
          let s2 := pr.1
          let best2 := if equivalent cc baseline pr.2 then (body_text, some pr.2) else best1
          (match best2.2 with
           | some r0 => if best2.1 ≠ current_body then (s2, some (best2.1, r0)) else (s2, none)
           | none => (s2, none)
           : (σ × List (List (String × String) × Option String)) ×
               Option (Option String × ResponseSnapshot))).1) := by
  split
  · exact h
  · simp only []
    have h1 : sentHeadersMapped (ddmin candidate_keys
        (fun (p : (σ × List (List (String × String) × Option String)) ×
            (Option String × Option ResponseSnapshot)) (active_keys : List String) =>
          let body_text := build_body_text body_kind
            (some (rebuild_blank parsed candidate_keys active_keys))
          let pr := send (loggingNet net) request p.1 (headersListToDict headers) body_text
          if equivalent cc baseline pr.2 then ((pr.1, (body_text, some pr.2)), true)
          else ((pr.1, p.2), false))
        none (st, (current_body, none))).2.2.1 :=
      ddmin_state_inv _ _ _ _
        (fun (p : ((σ × List (List (String × String) × Option String)) ×
            (Option String × Option ResponseSnapshot))) => sentHeadersMapped p.1) h
        (by
          intro p r hsub hQ
          simp only []
          split <;>
            exact send_lognet_inv net request p.1 headers _ hQ)
    have h2 := send_lognet_inv net request _ headers
      (build_body_text body_kind (some (rebuild_blank parsed candidate_keys
        (ddmin candidate_keys
          (fun (p : (σ × List (List (String × String) × Option String)) ×
              (Option String × Option ResponseSnapshot)) (active_keys : List String) =>
            let body_text := build_body_text body_kind
              (some (rebuild_blank parsed candidate_keys active_keys))
            let pr := send (loggingNet net) request p.1 (headersListToDict headers) body_text
            if equivalent cc baseline pr.2 then ((pr.1, (body_text, some pr.2)), true)
            else ((pr.1, p.2), false))
          none (st, (current_body, none))).1))) h1
    split
    · rw [ite_pair_fst]
      exact h2
    · exact h2

theorem try_blank_lognet {σ : Type} (cc : ComparatorConfig) (bcfg : BodyConfig)
    (net : Net σ) (request : RequestData) (headers : List Header)
    (baseline : ResponseSnapshot) (body_kind : String) (current_body : Option String)
    (st : σ × List (List (String × String) × Option String)) (h : sentHeadersMapped st) :
    sentHeadersMapped (try_blank_body_values cc bcfg (loggingNet net) request headers baseline
      body_kind current_body st).1 := by
  unfold try_blank_body_values
  split
  · exact h
  · split
    · cases hjl : json_loads_obj (current_body.getD "") with
      | none => exact h
      | some parsed =>
        exact try_blank_tail_lognet cc net request headers baseline body_kind parsed _
          current_body st h
    · exact try_blank_tail_lognet cc net request headers baseline body_kind _ _
        current_body st h

theorem try_blank_branch_lognet {σ : Type} (cc : ComparatorConfig) (bcfg : BodyConfig)
    (net : Net σ) (request : RequestData) (headers : List Header)
    (baseline : ResponseSnapshot) (body_kind : String) (current_body : Option String)
    (C : Prop) [Decidable C] (st : σ × List (List (String × String) × Option String))
    (h : sentHeadersMapped st) :
    sentHeadersMapped ((if C then
        try_blank_body_values cc bcfg (loggingNet net) request headers baseline body_kind
          current_body st
      else (st, none)).1) := by
  split
  · exact try_blank_lognet cc bcfg net request headers baseline body_kind current_body st h
  · exact h

theorem headers_phase_branch_lognet {σ : Type} (C : Prop) [Decidable C]
    (cc : ComparatorConfig) (hcfg : HeadersConfig) (net : Net σ) (request : RequestData)
    (cur : List Header) (base : ResponseSnapshot) (mt : Int)
    (st : σ × List (List (String × String) × Option String))
    (alt : PhaseOut (σ × List (List (String × String) × Option String)) (List Header))
    (h : sentHeadersMapped st) (halt : sentHeadersMapped alt.state) :
    sentHeadersMapped
      ((if C then minimize_headers cc hcfg (loggingNet net) request cur base mt st
        else alt).state) := by
  split
  · exact minimize_headers_lognet cc hcfg net request cur base mt st h
  · exact halt

theorem body_phase_branch_lognet {σ : Type} (C : Prop) [Decidable C]
    (cc : ComparatorConfig) (bcfg : BodyConfig) (net : Net σ) (request : RequestData)
    (headers : List Header) (base : ResponseSnapshot) (mt : Int)
    (st : σ × List (List (String × String) × Option String))
    (alt : PhaseOut (σ × List (List (String × String) × Option String)) (Option String))
    (h : sentHeadersMapped st) (halt : sentHeadersMapped alt.state) :
    sentHeadersMapped
      ((if C then minimize_body cc bcfg (loggingNet net) request headers base mt st
        else alt).state) := by
  split
  · exact minimize_body_lognet cc bcfg net request headers base mt st h
  · exact halt

theorem minimize_lognet {σ : Type} (cfg : Config) (cc : ComparatorConfig) (net : Net σ)
    (request : RequestData) (st : σ × List (List (String × String) × Option String))
    (h : sentHeadersMapped st) :
    sentHeadersMapped (minimize cfg cc (loggingNet net) request st).1 := by
  simp only [minimize]
  split
  · exact send_lognet_inv net request st request.headers request.body_text h
  · apply try_blank_branch_lognet
    apply send_lognet_inv
    apply body_phase_branch_lognet
    · apply headers_phase_branch_lognet
      · exact send_lognet_inv net request st request.headers request.body_text h
      · exact send_lognet_inv net request st request.headers request.body_text h
    · apply headers_phase_branch_lognet
      · exact send_lognet_inv net request st request.headers request.body_text h
      · exact send_lognet_inv net request st request.headers request.body_text h

/-- C9: every exchange a full minimization run issues sends the header
list converted to a name-to-value mapping: the sent mapping always lies
in the range of the conversion, whose key list is duplicate-free and
whose value for each nonempty name is the value of the last header entry
bearing that name — even though the request data model preserves
duplicate header entries in order. -/
theorem minimize_sends_last_wins_mapping {σ : Type} :
    (∀ (cfg : Config) (cc : ComparatorConfig) (net : Net σ) (request : RequestData) (s0 : σ)
       (e : List (String × String) × Option String),
       e ∈ (minimize cfg cc (loggingNet net) request (s0, [])).1.2 →
       ∃ hl : List Header, e.1 = headersListToDict hl)
    ∧ (∀ hl : List Header, ((headersListToDict hl).map Prod.fst).Nodup)
    ∧ (∀ (hl : List Header) (nm : String), nm ≠ "" →
        dictLookup (headersListToDict hl) nm
          = ((hl.filter (fun h => h.name == nm)).getLast?).map Header.value) := by
  refine ⟨?_, headersListToDict_keys_nodup, headersListToDict_last_wins⟩
  intro cfg cc net request s0 e he
  exact minimize_lognet cfg cc net request (s0, []) (by intro e2 he2; simp at he2) e he

/-- C9 witness: duplicate-free keys and last-occurrence-wins lookup
applied to the concrete duplicated header list of `req2`. -/
theorem minimize_sends_last_wins_mapping_witness :
    ((headersListToDict req2.headers).map Prod.fst).Nodup
    ∧ dictLookup (headersListToDict req2.headers) "X-A" = some "2" :=
  ⟨(@minimize_sends_last_wins_mapping Unit).2.1 req2.headers,
   ((@minimize_sends_last_wins_mapping Unit).2.2 req2.headers "X-A"
      (by decide)).trans (by decide)⟩

theorem header_fixed_of_name (hcfg : HeadersConfig) (g f : Header) (h : g.name = f.name) :
    header_fixed hcfg g = header_fixed hcfg f := by
  unfold header_fixed
  rw [h]

theorem minimize_headers_log_shape {σ : Type} (cc : ComparatorConfig) (hcfg : HeadersConfig)
    (net : Net σ) (request : RequestData) (cur : List Header) (base : ResponseSnapshot)
    (mt : Int) (s0 : σ) :
    ∀ e ∈ (minimize_headers cc hcfg (loggingNet net) request cur base mt (s0, [])).state.2,
      ∃ active : List Header, active.Sublist (classify_headers hcfg cur).1
        ∧ e.1 = headersListToDict ((classify_headers hcfg cur).2 ++ active)
        ∧ e.2 = request.body_text := by
  have heff : (match request.body_text with
      | none => request.body_text
      | some b => some b) = request.body_text := by
    cases request.body_text <;> rfl
  unfold minimize_headers
  dsimp only
  split
  · intro e he
    simp at he
  · intro e he
    refine ddmin_state_inv _ _ _ _
      (fun (p : ((σ × List (List (String × String) × Option String)) ×
          (List Header × ResponseSnapshot))) =>
        ∀ e2 ∈ p.1.2, ∃ active : List Header, active.Sublist (classify_headers hcfg cur).1
          ∧ e2.1 = headersListToDict ((classify_headers hcfg cur).2 ++ active)
          ∧ e2.2 = request.body_text)
      (by intro e2 he2; simp at he2)
      (by
        intro p r hsub hQ
        split <;>
        · intro e2 he2
          simp only [send, loggingNet] at he2
          rcases List.mem_append.mp he2 with h1 | h1
          · exact hQ e2 h1
          · simp only [List.mem_singleton] at h1
            subst h1
            exact ⟨r, hsub, rfl, heff⟩)
      e he

/-- C2 (amended): the candidate and fixed header sets are disjoint, and
every candidate request the header-reduction phase sends to the transport
is the name-to-value conversion of the fixed entries followed by a
subsequence of the candidates, paired with the original body; for each
fixed entry with a nonempty name, the sent mapping carries that name with
the value of the last fixed entry bearing it — in particular the fixed
entry appears with name and value unmodified whenever no other fixed
entry shares its name with a different value (as stated the claim fails
for duplicated fixed names, see the counterexample). -/
theorem header_split_disjoint_fixed_amended {σ : Type} (cc : ComparatorConfig)
    (hcfg : HeadersConfig) (net : Net σ) (request : RequestData) (cur : List Header)
    (base : ResponseSnapshot) (mt : Int) (s0 : σ) :
    (∀ h ∈ (classify_headers hcfg cur).1, h ∉ (classify_headers hcfg cur).2)
    ∧ (∀ e ∈ (minimize_headers cc hcfg (loggingNet net) request cur base mt
          (s0, [])).state.2,
        ∃ active : List Header, active.Sublist (classify_headers hcfg cur).1
          ∧ e.1 = headersListToDict ((classify_headers hcfg cur).2 ++ active)
          ∧ e.2 = request.body_text
          ∧ (∀ f ∈ (classify_headers hcfg cur).2, f.name ≠ "" →
              dictLookup e.1 f.name
                = (((classify_headers hcfg cur).2.filter
                    (fun g => g.name == f.name)).getLast?).map Header.value
              ∧ ((∀ g ∈ (classify_headers hcfg cur).2, g.name = f.name →
                    g.value = f.value) →
                  dictLookup e.1 f.name = some f.value))) := by
  constructor
  · intro h hc hf
    simp only [classify_headers, List.mem_filter] at hc hf
    rw [hf.2] at hc
    simp at hc
  · intro e he
    obtain ⟨active, hsub, he1, he2⟩ :=
      minimize_headers_log_shape cc hcfg net request cur base mt s0 e he
    refine ⟨active, hsub, he1, he2, ?_⟩
    intro f hf hfname
    have hffix : header_fixed hcfg f = true := by
      have h2 : f ∈ cur.filter (fun h => header_fixed hcfg h) := hf
      exact (List.mem_filter.mp h2).2
    have hnoclash : ∀ g ∈ active, g.name ≠ f.name := by
      intro g hg hcontra
      have hgcand : g ∈ cur.filter (fun h => !(header_fixed hcfg h)) := hsub.subset hg
      have hgfix : (!(header_fixed hcfg g)) = true := (List.mem_filter.mp hgcand).2
      rw [header_fixed_of_name hcfg g f hcontra, hffix] at hgfix
      simp at hgfix
    have hlk : dictLookup e.1 f.name
        = dictLookup (headersListToDict (classify_headers hcfg cur).2) f.name := by
      rw [he1]
      exact dictLookup_append_no_name _ active f.name hnoclash
    constructor
    · rw [hlk]
      exact headersListToDict_last_wins _ f.name hfname
    · intro huniq
      rw [hlk, headersListToDict_last_wins _ f.name hfname]
      have hfl : f ∈ (classify_headers hcfg cur).2.filter (fun g => g.name == f.name) :=
        List.mem_filter.mpr ⟨hf, by simp⟩
      have hne : (classify_headers hcfg cur).2.filter (fun g => g.name == f.name) ≠ [] := by
        intro hnil
        rw [hnil] at hfl
        exact List.not_mem_nil f hfl
      obtain ⟨g, hgl⟩ := Option.isSome_iff_exists.mp (List.getLast?_isSome.mpr hne)
      obtain ⟨hne2, hgeq⟩ := List.mem_getLast?_eq_getLast (Option.mem_def.mpr hgl)
      have hgmem : g ∈ (classify_headers hcfg cur).2.filter (fun g => g.name == f.name) := by
        rw [hgeq]
        exact List.getLast_mem hne2
      obtain ⟨hgmem2, hgname⟩ := List.mem_filter.mp hgmem
      have hgv : g.value = f.value := huniq g hgmem2 (by simpa using hgname)
      rw [hgl]
      simp [hgv]

/-- C2 counterexample: with two protected headers both named `X-A` and
values `1` and `2`, the single candidate request sent during header
reduction carries the mapping `[("X-A", "2")]`: the fixed entry
`(X-A, 1)` is not contained in it with its value — refuting the claim as
stated. -/
theorem header_fixed_unmodified_counterexample :
    run2.state = [([("X-A", "2")], none)]
    ∧ (⟨"X-A", "1"⟩ : Header) ∈ (classify_headers hcfg2 req2.headers).2
    ∧ dictLookup [("X-A", "2")] "X-A" ≠ some "1" := by
  decide

/-- C2 witness: the amended invariant applied to a concrete run with a
single protected header — disjointness and the unmodified appearance of
the unique fixed entry in the sent mapping. -/
theorem header_split_disjoint_fixed_amended_witness :
    (⟨"B", "b"⟩ : Header) ∉ (classify_headers hcfg2 reqW2.headers).2
    ∧ dictLookup [("X-A", "7")] "X-A" = some "7" := by
  constructor
  · exact (@header_split_disjoint_fixed_amended Unit ccGood hcfg2 netU reqW2
      reqW2.headers (okSnap "GOOD") 10 ()).1 ⟨"B", "b"⟩ (by decide)
  · obtain ⟨active, hsub, he1, he2, hfix⟩ :=
      (@header_split_disjoint_fixed_amended Unit ccGood hcfg2 netU reqW2
        reqW2.headers (okSnap "GOOD") 10 ()).2 ([("X-A", "7")], none) (by decide)
    exact (hfix ⟨"X-A", "7"⟩ (by decide) (by decide)).2 (by decide)

end HARMin
